import Mathlib

/-!
Verification development for the echopype single-target-detection core:
a shallow embedding of
  src/echopype/mask/single_target_detection/detect_esp3.py    (variant A) and
  src/echopype/mask/single_target_detection/detect_matecho.py (variant B),
together with theorems settling the spec claims.

Modelling conventions:
* Python floats are modelled as exact rationals; float arithmetic is exact
  arithmetic on rationals.  NaN ("non-finite" values, numpy convention) is
  modelled by the value `none` of type `Val := Option Rat`; every numpy/Python
  comparison involving NaN is false, which the `v*` comparison helpers below
  reproduce.  `log10` is not rational-valued, so it is passed to the detectors
  as an explicit function parameter `lg : Rat → Rat`; concrete instantiations
  below only ever evaluate it at points where its value is pinned (log10 1 = 0)
  or irrelevant to the stated property.
* numpy arrays indexed [ping_time, range_sample] are `List (List Val)`
  (outer list = pings, inner list = samples).
* Python `int(x)` truncates toward zero, `round(x)` rounds half to even,
  `math.ceil` is the usual ceiling; see `pyTrunc`, `pyRound` below.
-/

/-- A float value: `some q` is a finite float with (exact) value `q`;
`none` is NaN / non-finite. -/
def Val : Type := Option ℚ

instance : DecidableEq Val := inferInstanceAs (DecidableEq (Option ℚ))

/-- Lift a finite rational to a value. -/
def Val.fin (q : ℚ) : Val := some q

/-- NaN. -/
def Val.nan : Val := none

/-- numpy `a > b` : false when either operand is NaN. -/
def vgt : Val → Val → Bool
  | some a, some b => decide (b < a)
  | _, _ => false

/-- numpy `a >= b` : false when either operand is NaN. -/
def vge : Val → Val → Bool
  | some a, some b => decide (b ≤ a)
  | _, _ => false

/-- numpy `isfinite`. -/
def vfin : Val → Bool
  | some _ => true
  | none => false

/-- Float addition: NaN propagates. -/
def vadd : Val → Val → Val
  | some a, some b => some (a + b)
  | _, _ => none

/-- Float subtraction: NaN propagates. -/
def vsub : Val → Val → Val
  | some a, some b => some (a - b)
  | _, _ => none

/-- Float multiplication: NaN propagates (0 * NaN = NaN in IEEE). -/
def vmul : Val → Val → Val
  | some a, some b => some (a * b)
  | _, _ => none

/-- numpy `maximum` against a finite scalar: NaN propagates. -/
def vmaxQ (v : Val) (q : ℚ) : Val := v.map (fun a => max a q)

/-- numpy `clip(min=0)`: NaN propagates. -/
def vclip0 (v : Val) : Val := v.map (fun a => max a 0)

/-- Python `int(x)` for a finite float: truncation toward zero. -/
def pyTrunc (q : ℚ) : ℤ := if 0 ≤ q then ⌊q⌋ else ⌈q⌉

/-- Python `round(x)` for a finite float: round half to even. -/
def pyRound (q : ℚ) : ℤ :=
  let f : ℤ := ⌊q⌋
  let frac : ℚ := q - f
  if frac < 1/2 then f
  else if 1/2 < frac then f + 1
  else if f % 2 = 0 then f else f + 1

/-- Insertion of a rational into a sorted list (used by the median). -/
def insertAsc (x : ℚ) : List ℚ → List ℚ
  | [] => [x]
  | y :: ys => if x ≤ y then x :: y :: ys else y :: insertAsc x ys

/-- Insertion sort, ascending (kernel-reducible; numpy median only needs the
sorted value sequence). -/
def sortAsc (l : List ℚ) : List ℚ := l.foldr insertAsc []

/-- numpy `median(skipna=True)` of a list of float values: drop NaNs, sort,
take the middle element (odd count) or the mean of the two middle elements
(even count); NaN for an empty list. -/
def medianSkipNA (l : List Val) : Val :=
  let fs := sortAsc (l.filterMap id)
  let n := fs.length
  if n = 0 then none
  else if n % 2 = 1 then some (fs.getD (n / 2) 0)
  else some ((fs.getD (n / 2 - 1) 0 + fs.getD (n / 2) 0) / 2)

/-!  Block partitioner (identical in both variants):
  detect_esp3.py lines 147-151 / detect_matecho.py lines 166-169.
  cells_per_ping = max(1, idx_r_tot.size)
  block_size = int(min(math.ceil(block_len / cells_per_ping), idx_pings_tot.size))
  esp3:    num_ite = int(math.ceil(nPings / block_size)) if block_size > 0 else 0
  matecho: num_ite = int(math.ceil(nPings / max(block_size, 1)))
  Block ui spans pings [ui*block_size, min((ui+1)*block_size, nPings)). -/

/-- cells_per_ping = max(1, idx_r_tot.size). -/
def cellsPerPing (nActiveSamples : ℕ) : ℕ := max 1 nActiveSamples

/-- block_size = min(ceil(block_len / cells_per_ping), nPings), as an integer. -/
def blockSize (blockLen : ℚ) (nActiveSamples nPings : ℕ) : ℤ :=
  min ⌈blockLen / (cellsPerPing nActiveSamples : ℚ)⌉ (nPings : ℤ)

/-- num_ite in detect_esp3.py (guarded by block_size > 0). -/
def numIteA (blockLen : ℚ) (nActiveSamples nPings : ℕ) : ℕ :=
  let bs := blockSize blockLen nActiveSamples nPings
  if 0 < bs then (⌈(nPings : ℚ) / (bs : ℚ)⌉).toNat else 0

/-- num_ite in detect_matecho.py (divides by max(block_size, 1)). -/
def numIteB (blockLen : ℚ) (nActiveSamples nPings : ℕ) : ℕ :=
  let bs := blockSize blockLen nActiveSamples nPings
  (⌈(nPings : ℚ) / (max bs 1 : ℤ)⌉).toNat

/-- The ping-index range of block `ui`: start = ui*bs, stop = min((ui+1)*bs, n). -/
def blockRange (bs nPings ui : ℕ) : ℕ × ℕ :=
  (ui * bs, min ((ui + 1) * bs) nPings)

/-- The sequence of ping-index ranges iterated by the block loop. -/
def blockRanges (bs nPings numIte : ℕ) : List (ℕ × ℕ) :=
  (List.range numIte).map (blockRange bs nPings)

/-- The pings of one block, in order. -/
def blockPings (r : ℕ × ℕ) : List ℕ := List.range' r.1 (r.2 - r.1)

/-!  Navigation accessor (detect_matecho.py `_fallback_1d_aligned`, lines 30-44;
  detect_esp3.py `_pull_nav`, lines 156-198 is identical in the modelled path).
  `da.reindex(ping_time=ref, method="nearest", tolerance=500ms)` follows the
  pandas nearest-index semantics on a monotonically increasing source index:
  for each target time the candidate below (pad) and above (backfill) are
  compared by distance, ties going to the later one, and the winner is kept
  only if its distance is within the tolerance; otherwise the entry is NaN.
  A variable that is entirely absent falls back to a zero vector
  (esp3 `_fallback`, lines 191-198 / matecho lines 90-95).
  Times are rationals in seconds; the tolerance 500 ms is 1/2. -/

/-- Index of the last source time `≤ t` (pandas pad / ffill indexer). -/
def padIdx : List ℚ → ℚ → Option ℕ
  | [], _ => none
  | x :: xs, t =>
    match padIdx xs t with
    | some i => some (i + 1)
    | none => if x ≤ t then some 0 else none

/-- Index of the first source time `≥ t` (pandas backfill / bfill indexer). -/
def bfillIdx : List ℚ → ℚ → Option ℕ
  | [], _ => none
  | x :: xs, t => if t ≤ x then some 0 else (bfillIdx xs t).map (· + 1)

/-- pandas nearest indexer on a monotone source index: compare the pad and
backfill candidates by absolute distance, ties to the later (backfill) one. -/
def nearestIdx (ts : List ℚ) (t : ℚ) : Option ℕ :=
  match padIdx ts t, bfillIdx ts t with
  | none, none => none
  | some i, none => some i
  | none, some j => some j
  | some i, some j => if |t - ts.getD i 0| < |ts.getD j 0 - t| then some i else some j

/-- One entry of `reindex(method="nearest", tolerance=tol)`: the nearest source
value when its time lies within `tol` of `t`, NaN otherwise. -/
def reindexNearest (ts : List ℚ) (vs : List Val) (tol t : ℚ) : Val :=
  match nearestIdx ts t with
  | none => none
  | some i => if |ts.getD i 0 - t| ≤ tol then vs.getD i none else none

/-- A navigation source series: sample times paired with sample values. -/
structure NavSeries where
  times : List ℚ
  vals : List Val

/-- Per-ping navigation vector: reindexed to the ping timeline with nearest
matching within 500 ms when the variable exists, a zero vector otherwise. -/
def navAligned (src : Option NavSeries) (pingTimes : List ℚ) : List Val :=
  match src with
  | none => pingTimes.map (fun _ => some 0)
  | some s => pingTimes.map (reindexNearest s.times s.vals (1/2))

/-!  Output structure (`init_st_struct`, detect_esp3.py lines 23-50; the
  matecho fallback `init_st_struct`, detect_matecho.py lines 181-207, builds
  the same dict).  Parallel lists, one entry appended per accepted detection
  (for the fields a variant actually appends). -/

structure StStruct where
  TS_comp : List Val
  TS_uncomp : List Val
  Target_range : List Val
  Target_range_disp : List Val
  Target_range_min : List Val
  Target_range_max : List Val
  idx_r : List ℕ
  StandDev_Angles_Minor_Axis : List Val
  StandDev_Angles_Major_Axis : List Val
  Angle_minor_axis : List Val
  Angle_major_axis : List Val
  Ping_number : List ℕ
  Time : List ℚ
  nb_valid_targets : ℕ
  idx_target_lin : List ℕ
  pulse_env_before_lin : List ℕ
  pulse_env_after_lin : List ℕ
  PulseLength_Normalized_PLDL : List ℚ
  Transmitted_pulse_length : List ℕ
  Heave : List Val
  Roll : List Val
  Pitch : List Val
  Heading : List Val
  Dist : List Val
deriving DecidableEq

/-- The empty output struct returned by `init_st_struct`. -/
def initStStruct : StStruct :=
  { TS_comp := [], TS_uncomp := [], Target_range := [], Target_range_disp := []
    Target_range_min := [], Target_range_max := [], idx_r := []
    StandDev_Angles_Minor_Axis := [], StandDev_Angles_Major_Axis := []
    Angle_minor_axis := [], Angle_major_axis := [], Ping_number := [], Time := []
    nb_valid_targets := 0, idx_target_lin := [], pulse_env_before_lin := []
    pulse_env_after_lin := [], PulseLength_Normalized_PLDL := []
    Transmitted_pulse_length := [], Heave := [], Roll := [], Pitch := []
    Heading := [], Dist := [] }

/-!  Variant A: detect_esp3.py. -/

/-- Merged configuration of detect_esp3 (DEFAULTS, lines 7-20, merged with the
user map at line 85; `Np` and `pulse_length` are the optional keys consulted at
lines 228-240).  Rational default stand-ins for the float literals. -/
structure ParamsA where
  SoundSpeed : ℚ := 1500
  TS_threshold : ℚ := -50
  PLDL : ℚ := 6
  MinNormPL : ℚ := 7/10
  MaxNormPL : ℚ := 3/2
  DataType : String := "CW"
  block_len : ℚ := 10000000/3
  NpOpt : Option ℤ := none
  pulse_length : Option ℚ := none

/-- The acoustic frame for one channel: Sv and depth matrices
([ping][sample]), ping timestamps, and the range_sample axis size
`nb_samples_tot`. -/
structure FrameA where
  Sv : List (List Val)
  depth : List (List Val)
  times : List ℚ
  nbSamples : ℕ

/-- nb_pings_tot = size of the ping_time axis. -/
def FrameA.nbPings (F : FrameA) : ℕ := F.Sv.length

/-- Depth row of ping `p`. -/
def depthRow (F : FrameA) (p : ℕ) : List Val := F.depth.getD p []

/-- Sv row of ping `p`. -/
def svRow (F : FrameA) (p : ℕ) : List Val := F.Sv.getD p []

/-- First under-bottom sample of one ping: index of the first sample with
finite depth `≥` the ping's bottom depth (lines 130-133 / 275-278:
`np.nonzero(np.isfinite(D) & (D >= b))[0][0]`).  `none` when no sample
crosses (including a NaN bottom, for which every comparison is false). -/
def crossIdx (row : List Val) (b : Val) : Option ℕ :=
  row.findIdx? (fun v => vge v b)

/-- idx_bot of one ping: the crossing index, else nb_samples_tot - 1
(line 133 / 278; as an integer so that nb_samples_tot = 0 gives -1,
matching Python). -/
def idxBot (F : FrameA) (bottom : List Val) (p : ℕ) : ℤ :=
  match crossIdx (depthRow F p) (bottom.getD p none) with
  | some i => (i : ℤ)
  | none => (F.nbSamples : ℤ) - 1

/-- max over a ping set of idx_bot (`np.nanmax(idx_bot)`; the entries are
integers, so nanmax is an ordinary max, with the first entry seeding the
fold as in numpy; pings is nonempty wherever this is used). -/
def maxIdxBot (F : FrameA) (bottom : List Val) (pings : List ℕ) : ℤ :=
  match pings with
  | [] => -1
  | p :: ps => ps.foldl (fun acc q => max acc (idxBot F bottom q)) (idxBot F bottom p)

/-- idx_r_tot: all sample indices, cropped to the global max idx_bot
(inclusive) when a bottom line is supplied (lines 120, 136-137). -/
def idxRTot (F : FrameA) (bottom : Option (List Val)) : List ℕ :=
  match bottom with
  | none => List.range F.nbSamples
  | some b => List.range (maxIdxBot F b (List.range F.nbPings) + 1).toNat

/-- Per-block row index set: idx_r_tot cropped again to the block's own
max idx_bot, inclusive (lines 271-280). -/
def idxRBlock (F : FrameA) (bottom : Option (List Val)) (pings : List ℕ) : List ℕ :=
  match bottom with
  | none => idxRTot F bottom
  | some b =>
    if pings.length = 0 then idxRTot F bottom
    else (idxRTot F bottom).filter (fun i => decide ((i : ℤ) ≤ maxIdxBot F b pings))

/-- The masked TS column of ping `p` over row set `idxL`: the under-bottom
mask (`DEP >= bcol`, line 323; the region mask of line 145 is identically
false) sends a cell to the MATLAB sentinel -999 (line 326), other cells keep
their Sv value.  Out-of-range reads give NaN. -/
def maskedCol (F : FrameA) (bottom : Option (List Val)) (idxL : List ℕ) (p : ℕ) : List Val :=
  idxL.map (fun i =>
    match bottom with
    | none => (svRow F p).getD i none
    | some b =>
      if vge ((depthRow F p).getD i none) (b.getD p none) then some (-999)
      else (svRow F p).getD i none)

/-- The depth column of ping `p` over row set `idxL`. -/
def depthCol (F : FrameA) (idxL : List ℕ) (p : ℕ) : List Val :=
  idxL.map (fun i => (depthRow F p).getD i none)

/-- Whether a column has any cell strictly above the -999 sentinel. -/
def colAnyValid (c : List Val) : Bool := c.any (fun v => vgt v (some (-999)))

/-- last_row: the greatest row index at which some ping of the block is
strictly above -999 (lines 331-332); meaningful only when some cell is valid. -/
def lastValidRow (cols : List (List Val)) (nRows : ℕ) : ℕ :=
  ((List.range nRows).filter
    (fun i => cols.any (fun c => vgt (c.getD i none) (some (-999))))).foldl max 0

/-- Pulse-duration T: `p.get("pulse_length", 1e-3)` (lines 230/239). -/
def ParamsA.T (P : ParamsA) : ℚ := P.pulse_length.getD (1/1000)

/-- The vertical step used to derive Np: the median over all per-ping
depth differences (line 232, `Depth.diff("range_sample").median(skipna=True)`). -/
def dstepA (F : FrameA) : Val :=
  medianSkipNA (F.depth.flatMap (fun row => (row.zip row.tail).map (fun ab => vsub ab.2 ab.1)))

/-- dt = 2*dstep/c when dstep > 0 (false for NaN), else 1e-4 (line 238). -/
def dtOf (dstep : Val) (c : ℚ) : ℚ :=
  match dstep with
  | some s => if 0 < s then 2 * s / c else 1/10000
  | none => 1/10000

/-- Np (samples): the explicit parameter when given and > 2, else
max(3, round(T/dt)) (lines 228-240). -/
def NpA (P : ParamsA) (F : FrameA) : ℤ :=
  match P.NpOpt with
  | some n => if 2 < n then n else max 3 (pyRound (P.T / dtOf (dstepA F) P.SoundSpeed))
  | none => max 3 (pyRound (P.T / dtOf (dstepA F) P.SoundSpeed))

/-- min_len = max(1, int(Np * MinNormPL)) (line 244; `int` truncates). -/
def minLenA (P : ParamsA) (F : FrameA) : ℤ :=
  max 1 (pyTrunc ((NpA P F : ℚ) * P.MinNormPL))

/-- max_len = max(1, ceil(Np * MaxNormPL)) (line 245). -/
def maxLenA (P : ParamsA) (F : FrameA) : ℤ :=
  max 1 ⌈(NpA P F : ℚ) * P.MaxNormPL⌉

/-- Strict-local-maximum candidates of a masked column (line 360):
indices i with 0 < i < n-1, z[i] > -999 (valid), z[i] > z[i-1] and
z[i] ≥ z[i+1]; NaN comparisons are false. -/
def candListA (z : List Val) : List ℕ :=
  (List.range z.length).filter (fun i =>
    decide (1 ≤ i) && decide (i + 1 < z.length) &&
    vgt (z.getD i none) (some (-999)) &&
    vgt (z.getD i none) (z.getD (i - 1) none) &&
    vge (z.getD i none) (z.getD (i + 1) none))

/-- Greedy first-wins minimum-separation filter (lines 363-367): keep a
candidate iff it is ≥ Np past the last kept one; `last` starts at -(10^9). -/
def minSepKeep (Np : ℤ) : List ℕ → ℤ → List ℕ
  | [], _ => []
  | k :: rest, last =>
    if Np ≤ (k : ℤ) - last then k :: minSepKeep Np rest (k : ℤ)
    else minSepKeep Np rest last

/-- keep = minSepKeep over the candidates, seeded with last = -(10^9). -/
def keepA (Np : ℤ) (z : List Val) : List ℕ := minSepKeep Np (candListA z) (-(10^9))

/-- Test of the PLDL expansion loop: the neighbour is finite and ≥ thr. -/
def passThr (v : Val) (thr : ℚ) : Bool :=
  match v with
  | some a => decide (thr ≤ a)
  | none => false

/-- Left expansion (lines 376-380): starting below index `i+1`, count
consecutive samples (descending) that are finite and ≥ thr, stopping at the
cap (`left < max_len`) or index 0. -/
def runLeft (z : List Val) (thr : ℚ) : ℕ → ℕ → ℕ
  | _, 0 => 0
  | 0, _ => 0
  | i + 1, cap + 1 =>
    if passThr (z.getD i none) thr then 1 + runLeft z thr i cap else 0

/-- Right expansion (lines 381-385) over the suffix after the peak, with the
same cap. -/
def runRight (thr : ℚ) : List Val → ℕ → ℕ
  | _, 0 => 0
  | [], _ => 0
  | v :: rest, cap + 1 =>
    if passThr v thr then 1 + runRight thr rest cap else 0

/-- Per-ping processing context for variant A: the derived constants plus the
block-and-ping-local columns. -/
structure CtxA where
  Np : ℤ
  TSthr : ℚ
  PLDL : ℚ
  minLen : ℤ
  maxLen : ℤ
  c : ℚ
  T : ℚ
  alpha : ℚ
  lg : ℚ → ℚ
  z : List Val
  d : List Val
  idxL : List ℕ
  pingGlob : ℕ
  time : ℚ
  nbSamplesTot : ℕ

/-- One accepted variant-A detection, with the fields appended at
lines 437-456. -/
structure DetA where
  TS_comp : Val
  TS_uncomp : Val
  Target_range : Val
  Target_range_disp : Val
  Target_range_min : Val
  Target_range_max : Val
  idx_r : ℕ
  Ping_number : ℕ
  Time : ℚ
  idx_target_lin : ℕ
  pulse_env_before : ℕ
  pulse_env_after : ℕ
  PL_norm : ℚ
  plen : ℕ
deriving DecidableEq

/-- Validation and record construction for one surviving candidate
(lines 369-456): threshold test, PLDL expansion, pulse-length bound,
finite-depth envelope, TVG at the peak, final threshold test. -/
def processCandA (cx : CtxA) (k : ℕ) : Option DetA :=
  match cx.z.getD k none with
  | none => none
  | some pk =>
    if pk ≤ cx.TSthr then none
    else
      let thr := pk - cx.PLDL
      let left := runLeft cx.z thr k cx.maxLen.toNat
      let right := runRight thr (cx.z.drop (k + 1)) cx.maxLen.toNat
      let plen := 1 + left + right
      if (plen : ℤ) < cx.minLen ∨ cx.maxLen < (plen : ℤ) then none
      else
        match ((cx.d.drop (k - left)).take (left + right + 1)).filterMap id with
        | [] => none
        | q :: qs =>
          let rmin := qs.foldl min q
          let rmax := qs.foldl max q
          let rpeak := match cx.d.getD k none with
            | some dv => dv
            | none => (rmin + rmax) / 2
          let reff := rpeak - cx.c * cx.T / 4
          if reff ≤ 0 then none
          else
            let tvg := 40 * cx.lg reff + 2 * cx.alpha * reff
            let tsu := pk + tvg
            if tsu ≤ cx.TSthr then none
            else
              some { TS_comp := some tsu, TS_uncomp := some tsu,
                     Target_range := some rpeak,
                     Target_range_disp := some (rpeak + cx.c * cx.T / 4),
                     Target_range_min := some rmin, Target_range_max := some rmax,
                     idx_r := cx.idxL.getD k 0, Ping_number := cx.pingGlob,
                     Time := cx.time,
                     idx_target_lin := cx.pingGlob * cx.nbSamplesTot + cx.idxL.getD k 0,
                     pulse_env_before := left, pulse_env_after := right,
                     PL_norm := (plen : ℚ) / (cx.Np : ℚ), plen := plen }

/-- Detections of one ping column (lines 352-368 drive the candidate list
through `processCandA`; columns shorter than 3 samples are skipped). -/
def pingDetsA (cx : CtxA) : List DetA :=
  if cx.z.length < 3 then []
  else (keepA cx.Np cx.z).filterMap (processCandA cx)

/-- The block-local context for ping `p` of a block with row set `idxL`
cropped to `nRows` rows (the trailing-row crop of lines 330-336). -/
def mkCtxA (P : ParamsA) (F : FrameA) (bottom : Option (List Val)) (lg : ℚ → ℚ)
    (alpha : ℚ) (idxL : List ℕ) (nRows : ℕ) (p : ℕ) : CtxA :=
  { Np := NpA P F, TSthr := P.TS_threshold, PLDL := P.PLDL,
    minLen := minLenA P F, maxLen := maxLenA P F,
    c := P.SoundSpeed, T := P.T, alpha := alpha, lg := lg,
    z := (maskedCol F bottom idxL p).take nRows,
    d := (depthCol F idxL p).take nRows,
    idxL := idxL.take nRows,
    pingGlob := p, time := F.times.getD p 0, nbSamplesTot := F.nbSamples }

/-- Detections of one block (lines 264-336 + the per-ping loop): crop rows to
the block bottom, apply the mask, skip the block when no cell is valid, crop
the trailing all-masked rows, then process each ping column. -/
def blockDetsA (P : ParamsA) (F : FrameA) (bottom : Option (List Val)) (lg : ℚ → ℚ)
    (alpha : ℚ) (r : ℕ × ℕ) : List DetA :=
  let pings := blockPings r
  let idxL := idxRBlock F bottom pings
  let cols := pings.map (maskedCol F bottom idxL)
  if cols.any colAnyValid then
    let nRows := lastValidRow cols idxL.length + 1
    pings.flatMap (fun p => pingDetsA (mkCtxA P F bottom lg alpha idxL nRows p))
  else []

/-- All detections of a variant-A run, in (block, ping, sample) order. -/
def detsA (P : ParamsA) (F : FrameA) (bottom : Option (List Val)) (lg : ℚ → ℚ)
    (alpha : ℚ) : List DetA :=
  let nA := (idxRTot F bottom).length
  let bs := (blockSize P.block_len nA F.nbPings).toNat
  (blockRanges bs F.nbPings (numIteA P.block_len nA F.nbPings)).flatMap
    (blockDetsA P F bottom lg alpha)

/-- Appending one accepted variant-A detection to the output struct
(lines 437-456): sixteen lists get one entry each (the StandDev angle lists
get NaN), while the Angle_minor/major_axis and Heave/Roll/Pitch/Heading/Dist
appends are commented out in the source and therefore leave those lists
untouched. -/
def appendDetA (o : StStruct) (dt : DetA) : StStruct :=
  { o with
    TS_comp := o.TS_comp ++ [dt.TS_comp]
    TS_uncomp := o.TS_uncomp ++ [dt.TS_uncomp]
    Target_range := o.Target_range ++ [dt.Target_range]
    Target_range_disp := o.Target_range_disp ++ [dt.Target_range_disp]
    Target_range_min := o.Target_range_min ++ [dt.Target_range_min]
    Target_range_max := o.Target_range_max ++ [dt.Target_range_max]
    idx_r := o.idx_r ++ [dt.idx_r]
    Ping_number := o.Ping_number ++ [dt.Ping_number]
    Time := o.Time ++ [dt.Time]
    idx_target_lin := o.idx_target_lin ++ [dt.idx_target_lin]
    pulse_env_before_lin := o.pulse_env_before_lin ++ [dt.pulse_env_before]
    pulse_env_after_lin := o.pulse_env_after_lin ++ [dt.pulse_env_after]
    PulseLength_Normalized_PLDL := o.PulseLength_Normalized_PLDL ++ [dt.PL_norm]
    Transmitted_pulse_length := o.Transmitted_pulse_length ++ [dt.plen]
    StandDev_Angles_Minor_Axis := o.StandDev_Angles_Minor_Axis ++ [Val.nan]
    StandDev_Angles_Major_Axis := o.StandDev_Angles_Major_Axis ++ [Val.nan] }

/-- The finalization step (line 478): nb_valid_targets = len(TS_comp). -/
def finalize (o : StStruct) : StStruct :=
  { o with nb_valid_targets := o.TS_comp.length }

/-- The full variant-A run (after parameter parsing): accumulate every
accepted detection into the fresh struct and finalize. -/
def runA (P : ParamsA) (F : FrameA) (bottom : Option (List Val)) (lg : ℚ → ℚ)
    (alpha : ℚ) : StStruct :=
  finalize ((detsA P F bottom lg alpha).foldl appendDetA initStStruct)

/-- The two argument/configuration error kinds of the spec
(both are `ValueError`s in the Python source). -/
inductive DetErr where
  | config (msg : String)
  | missingParam (msg : String)
deriving DecidableEq

/-- `_validate_params` (detect_esp3.py lines 53-65), as a fail-fast check
sequence. -/
def validateA (P : ParamsA) : Except DetErr Unit :=
  if P.DataType ≠ "CW" then .error (.config "Only CW supported at this stage.")
  else if ¬(-120 ≤ P.TS_threshold ∧ P.TS_threshold ≤ -20) then
    .error (.config "TS_threshold must be in [-120, -20] dB.")
  else if ¬(1 ≤ P.PLDL ∧ P.PLDL ≤ 30) then
    .error (.config "PLDL must be in [1, 30] dB.")
  else if ¬(0 ≤ P.MinNormPL ∧ P.MinNormPL ≤ 10) then
    .error (.config "MinNormPL must be in [0, 10].")
  else if ¬(0 ≤ P.MaxNormPL ∧ P.MaxNormPL ≤ 10) then
    .error (.config "MaxNormPL must be in [0, 10].")
  else if P.block_len ≤ 0 then .error (.config "block_len must be > 0.")
  else .ok ()

/-- The argument-parsing phase of detect_esp3 (lines 77-87): the channel
selector is required before `_validate_params` runs. -/
def parsePhaseA (channel : Option ℕ) (P : ParamsA) : Except DetErr Unit :=
  match channel with
  | none => .error (.missingParam "params['channel'] is required.")
  | some _ => validateA P

/-- detect_esp3 end to end: parse/validate, then run the block loop; a
parse/validation error aborts before any block is processed. -/
def detectEsp3 (channel : Option ℕ) (P : ParamsA) (F : FrameA)
    (bottom : Option (List Val)) (lg : ℚ → ℚ) (alpha : ℚ) : Except DetErr StStruct :=
  match parsePhaseA channel P with
  | .error e => .error e
  | .ok _ => .ok (runA P F bottom lg alpha)

/-!  Variant B: detect_matecho.py. -/

/-- Merged configuration of detect_matecho (MATECHO_DEFAULTS, lines 7-27,
merged at lines 60-63).  The beamwidth defaults in the source are
`np.deg2rad(7.0)`, a float approximation of an irrational number; they are
required fields here (no claim depends on their default values). -/
structure ParamsB where
  SoundSpeed : ℚ := 1500
  TS_threshold : ℚ := -50
  MaxAngleOneWayCompression : ℚ := 6
  MinEchoLength : ℚ := 8/10
  MaxEchoLength : ℚ := 18/10
  MinEchoSpace : ℚ := 1
  MinEchoDepthM : ℚ := 3
  MaxEchoDepthM : ℚ := 38
  tvg_start_sample : ℤ := 3
  block_len : ℚ := 10000000/3
  beamwidth_along_3dB_rad : ℚ
  beamwidth_athwart_3dB_rad : ℚ
  steer_along_rad : ℚ := 0
  steer_athwart_rad : ℚ := 0
  psi_two_way : ℚ := 0
  Sa_correction : ℚ := 0
  Sa_EK80_nominal : ℚ := 0
  NpOpt : Option ℤ := none
  pulse_length : Option ℚ := none

/-- T = p.get("pulse_length", 1e-3) (line 130). -/
def ParamsB.T (P : ParamsB) : ℚ := P.pulse_length.getD (1/1000)

/-- The dataset portion consumed by detect_matecho for one channel:
Sv/depth/angle matrices, ping timestamps, navigation sources, scalar
metadata, bottom line. -/
structure InputB where
  Sv : List (List Val)
  depth : List (List Val)
  times : List ℚ
  nbSamples : ℕ
  along : Option (List (List Val)) := none
  athwt : Option (List (List Val)) := none
  navHeading : Option NavSeries := none
  navPitch : Option NavSeries := none
  navRoll : Option NavSeries := none
  navHeave : Option NavSeries := none
  navDist : Option NavSeries := none
  soundAbsorption : Option ℚ := none
  transducerDepth : Option ℚ := none
  bottom : Option (List Val) := none

/-- nb_pings_tot. -/
def InputB.nbPings (I : InputB) : ℕ := I.Sv.length

/-- The FrameA view of a matecho input (the bottom-cropping code of
lines 150-164 and 232-241 is literally the code of variant A). -/
def InputB.toFrame (I : InputB) : FrameA :=
  { Sv := I.Sv, depth := I.depth, times := I.times, nbSamples := I.nbSamples }

/-- Per-channel absorption with fallback 0 (lines 98-108). -/
def InputB.alpha (I : InputB) : ℚ := I.soundAbsorption.getD 0

/-- Transducer depth with fallback 0 (lines 111-117). -/
def InputB.TD (I : InputB) : ℚ := I.transducerDepth.getD 0

/-- The aligned per-ping navigation vectors (lines 84-95). -/
def heaveArr (I : InputB) : List Val := navAligned I.navHeave I.times
def rollArr (I : InputB) : List Val := navAligned I.navRoll I.times
def pitchArr (I : InputB) : List Val := navAligned I.navPitch I.times
def headingArr (I : InputB) : List Val := navAligned I.navHeading I.times
def distArr (I : InputB) : List Val := navAligned I.navDist I.times

/-- R = (Depth - (TD + heave)).clip(min=0) at ping p, sample i
(lines 120-121). -/
def rangeCell (I : InputB) (p i : ℕ) : Val :=
  vclip0 (vsub ((I.depth.getD p []).getD i none) (vadd (some I.TD) ((heaveArr I).getD p none)))

/-- The vertical step of matecho: median of the first ping's depth
differences (lines 124-127; a non-finite median stays NaN). -/
def dstepB (I : InputB) : Val :=
  medianSkipNA (((I.depth.getD 0 []).zip (I.depth.getD 0 []).tail).map
    (fun ab => vsub ab.2 ab.1))

/-- dt (line 128), identical to variant A's rule. -/
def dtB (I : InputB) (c : ℚ) : ℚ := dtOf (dstepB I) c

/-- NechP = max(3, round(T / max(dt, 1e-6))) (line 174), also the fallback Np
(line 134). -/
def NechP (P : ParamsB) (I : InputB) : ℤ :=
  max 3 (pyRound (P.T / max (dtB I P.SoundSpeed) (1/1000000)))

/-- sv2ts = 10 log10(c T / 2) + psi_two_way + 2 Sa_correction +
2 Sa_EK80_nominal (lines 137-142). -/
def sv2ts (P : ParamsB) (lg : ℚ → ℚ) : ℚ :=
  10 * lg (P.SoundSpeed * P.T / 2) + P.psi_two_way + 2 * P.Sa_correction +
    2 * P.Sa_EK80_nominal

/-- ts_range[j] = max(dstep, (j - tvg_start_sample) * dstep) metres
(line 173); NaN when dstep is NaN. -/
def tsRange (P : ParamsB) (I : InputB) (j : ℕ) : Val :=
  match dstepB I with
  | some s => some (max s (((j : ℤ) - P.tvg_start_sample : ℤ) * s))
  | none => none

/-- r_eff = np.maximum(ts_range, 1e-6) (line 285). -/
def reffCell (P : ParamsB) (I : InputB) (j : ℕ) : Val :=
  vmaxQ (tsRange P I j) (1/1000000)

/-- tsu = Sv + 20 log10(r_eff) + sv2ts at ping p, sample j (line 286). -/
def tsuCell (P : ParamsB) (I : InputB) (lg : ℚ → ℚ) (p j : ℕ) : Val :=
  vadd (vadd ((I.Sv.getD p []).getD j none)
      ((reffCell P I j).map (fun r => 20 * lg r)))
    (some (sv2ts P lg))

/-- Plike = tsu - 40 log10(r_eff) - 2 alpha ts_range (line 287). -/
def plikeCell (P : ParamsB) (I : InputB) (lg : ℚ → ℚ) (p j : ℕ) : Val :=
  vsub (vsub (tsuCell P I lg p j) ((reffCell P I j).map (fun r => 40 * lg r)))
    ((tsRange P I j).map (fun r => 2 * I.alpha * r))

/-- One-way beam compensation (lines 289-295): with both angle matrices,
comp = 6.0206 (x² + y² - 0.18 x² y²) with x = 2 (angle - steer)/beamwidth;
zero without them. -/
def compCell (P : ParamsB) (I : InputB) (p j : ℕ) : Val :=
  match I.along, I.athwt with
  | some al, some at_ =>
    let x := vmul (some (2 / P.beamwidth_along_3dB_rad))
      (vsub ((al.getD p []).getD j none) (some P.steer_along_rad))
    let y := vmul (some (2 / P.beamwidth_athwart_3dB_rad))
      (vsub ((at_.getD p []).getD j none) (some P.steer_athwart_rad))
    (vmul (some (60206/10000))
      (vsub (vadd (vmul x x) (vmul y y))
        (vmul (some (9/50)) (vmul (vmul x x) (vmul y y)))))
  | _, _ => some 0

/-- ts = tsu + comp (line 297). -/
def tsCell (P : ParamsB) (I : InputB) (lg : ℚ → ℚ) (p j : ℕ) : Val :=
  vadd (tsuCell P I lg p j) (compCell P I p j)

/-- The under-bottom mask test for ping p, sample j (lines 279-281). -/
def maskedB (I : InputB) (p j : ℕ) : Bool :=
  match I.bottom with
  | none => false
  | some b => vge ((I.depth.getD p []).getD j none) (b.getD p none)

/-- Apply the NaN mask of lines 300-302 to a cell value. -/
def maskCellB (I : InputB) (p j : ℕ) (v : Val) : Val :=
  if maskedB I p j then none else v

/-- Per-ping processing context for variant B. -/
structure CtxB where
  TSthr : ℚ
  MaxOW : ℚ
  MinEL : ℚ
  MaxEL : ℚ
  MinES : ℚ
  MinD : ℚ
  MaxD : ℚ
  NechP : ℤ
  decTir : ℕ
  TD : ℚ
  c : ℚ
  T : ℚ
  zP : List Val
  zTS : List Val
  zTSU : List Val
  rcol : List Val
  idxL : List ℕ
  pingGlob : ℕ
  time : ℚ
  nbSamplesTot : ℕ
  heaveJ : Val
  rollJ : Val
  pitchJ : Val
  headingJ : Val
  distJ : Val

/-- One accepted variant-B detection (fields appended at lines 361-387). -/
structure DetB where
  TS_comp : Val
  TS_uncomp : Val
  Target_range : Val
  Target_range_disp : Val
  Target_range_min : Val
  Target_range_max : Val
  idx_r : ℕ
  Ping_number : ℕ
  Time : ℚ
  idx_target_lin : ℕ
  pulse_env_before : ℕ
  pulse_env_after : ℕ
  PL_norm : ℚ
  plen : ℕ
  Heave : Val
  Roll : Val
  Pitch : Val
  Heading : Val
  Dist : Val
deriving DecidableEq

/-- Local maxima of Plike with the first dec_tir samples excluded
(lines 313-316): indices i with 0 < i < n-1, finite and past the guard,
zP[i] > zP[i-1], zP[i] ≥ zP[i+1]. -/
def candListB (zP : List Val) (decTir : ℕ) : List ℕ :=
  (List.range zP.length).filter (fun i =>
    decide (1 ≤ i) && decide (i + 1 < zP.length) &&
    vfin (zP.getD i none) && decide (decTir ≤ i) &&
    vgt (zP.getD i none) (zP.getD (i - 1) none) &&
    vge (zP.getD i none) (zP.getD (i + 1) none))

/-- One candidate of the per-ping loop (lines 319-387): the gate chain
(threshold, off-axis, 6-dB width, spacing, depth band), then — after the
candidate has been added to `keep` — the envelope range rows and the record.
Returns (was added to keep, record if appended). -/
def candResultB (cx : CtxB) (keep : List ℕ) (k : ℕ) : Bool × Option DetB :=
  match cx.zTS.getD k none with
  | none => (false, none)
  | some ts =>
    if ts ≤ cx.TSthr then (false, none)
    else if vgt (vsub (some ts) (cx.zTSU.getD k none)) (some (2 * cx.MaxOW)) then
      (false, none)
    else
      match cx.zP.getD k none with
      | none => (false, none)
      | some base =>
        let i0 := k - runLeft cx.zP (base - 6) k k
        let i1 := k + runRight (base - 6) (cx.zP.drop (k + 1)) cx.zP.length
        let plen := i1 - i0 + 1
        if (plen : ℤ) < pyRound ((cx.NechP : ℚ) * cx.MinEL) ∨
            pyRound ((cx.NechP : ℚ) * cx.MaxEL) < (plen : ℤ) then (false, none)
        else if decide (∃ kk ∈ keep,
            ((((k : ℤ) - (kk : ℤ)).natAbs : ℤ) < pyRound (cx.MinES * (cx.NechP : ℚ)))) then
          (false, none)
        else
          let dh := vadd (cx.rcol.getD k none) (vadd (some cx.TD) cx.heaveJ)
          if ¬(vge dh (some cx.MinD) && vge (some cx.MaxD) dh) then (false, none)
          else
            -- keep.append(k) has happened; lines 353-387 follow
            match ((cx.rcol.drop i0).take (i1 - i0 + 1)).filterMap id with
            | [] => (true, none)
            | q :: qs =>
              (true, some {
                TS_comp := some ts, TS_uncomp := cx.zTSU.getD k none,
                Target_range := cx.rcol.getD k none,
                Target_range_disp := vadd (cx.rcol.getD k none) (some (cx.c * cx.T / 4)),
                Target_range_min := some (qs.foldl min q),
                Target_range_max := some (qs.foldl max q),
                idx_r := cx.idxL.getD k 0, Ping_number := cx.pingGlob,
                Time := cx.time,
                idx_target_lin := cx.pingGlob * cx.nbSamplesTot + cx.idxL.getD k 0,
                pulse_env_before := k - i0, pulse_env_after := i1 - k,
                PL_norm := (plen : ℚ) / (cx.NechP : ℚ), plen := plen,
                Heave := cx.heaveJ, Roll := cx.rollJ, Pitch := cx.pitchJ,
                Heading := cx.headingJ, Dist := cx.distJ })

/-- One step of the per-ping loop: update (keep, detections). -/
def pingStepB (cx : CtxB) (st : List ℕ × List DetB) (k : ℕ) : List ℕ × List DetB :=
  let r := candResultB cx st.1 k
  (if r.1 then st.1 ++ [k] else st.1,
   match r.2 with
   | some dt => st.2 ++ [dt]
   | none => st.2)

/-- The whole per-ping loop (lines 305-387): skip the ping when Plike has no
finite entry, else fold the candidate list through `pingStepB`. -/
def pingRunB (cx : CtxB) : List ℕ × List DetB :=
  if cx.zP.any vfin then
    (candListB cx.zP cx.decTir).foldl (pingStepB cx) ([], [])
  else ([], [])

/-- The block-and-ping-local context for variant B (the column extraction of
lines 243-302, restricted to ping p and the block row set idxL; matecho
applies no trailing-row crop). -/
def mkCtxB (P : ParamsB) (I : InputB) (lg : ℚ → ℚ) (idxL : List ℕ) (p : ℕ) : CtxB :=
  { TSthr := P.TS_threshold, MaxOW := P.MaxAngleOneWayCompression,
    MinEL := P.MinEchoLength, MaxEL := P.MaxEchoLength, MinES := P.MinEchoSpace,
    MinD := P.MinEchoDepthM, MaxD := P.MaxEchoDepthM,
    NechP := NechP P I, decTir := 8, TD := I.TD, c := P.SoundSpeed, T := P.T,
    zP := idxL.map (fun j => maskCellB I p j (plikeCell P I lg p j)),
    zTS := idxL.map (fun j => maskCellB I p j (tsCell P I lg p j)),
    zTSU := idxL.map (fun j => maskCellB I p j (tsuCell P I lg p j)),
    rcol := idxL.map (rangeCell I p),
    idxL := idxL, pingGlob := p, time := I.times.getD p 0,
    nbSamplesTot := I.nbSamples,
    heaveJ := (heaveArr I).getD p none, rollJ := (rollArr I).getD p none,
    pitchJ := (pitchArr I).getD p none, headingJ := (headingArr I).getD p none,
    distJ := (distArr I).getD p none }

/-- Detections of one variant-B block (lines 227-241 for the row crop, then
the per-ping loop). -/
def blockDetsB (P : ParamsB) (I : InputB) (lg : ℚ → ℚ) (r : ℕ × ℕ) : List DetB :=
  let pings := blockPings r
  let idxL := idxRBlock I.toFrame I.bottom pings
  pings.flatMap (fun p => (pingRunB (mkCtxB P I lg idxL p)).2)

/-- All detections of a variant-B run, in (block, ping, sample) order. -/
def detsB (P : ParamsB) (I : InputB) (lg : ℚ → ℚ) : List DetB :=
  let nA := (idxRTot I.toFrame I.bottom).length
  let bs := (blockSize P.block_len nA I.nbPings).toNat
  (blockRanges bs I.nbPings (numIteB P.block_len nA I.nbPings)).flatMap
    (blockDetsB P I lg)

/-- Appending one accepted variant-B detection (lines 361-387): all
twenty-three per-detection lists get exactly one entry (the four angle
statistics lists get NaN). -/
def appendDetB (o : StStruct) (dt : DetB) : StStruct :=
  { TS_comp := o.TS_comp ++ [dt.TS_comp]
    TS_uncomp := o.TS_uncomp ++ [dt.TS_uncomp]
    Target_range := o.Target_range ++ [dt.Target_range]
    Target_range_disp := o.Target_range_disp ++ [dt.Target_range_disp]
    Target_range_min := o.Target_range_min ++ [dt.Target_range_min]
    Target_range_max := o.Target_range_max ++ [dt.Target_range_max]
    idx_r := o.idx_r ++ [dt.idx_r]
    StandDev_Angles_Minor_Axis := o.StandDev_Angles_Minor_Axis ++ [Val.nan]
    StandDev_Angles_Major_Axis := o.StandDev_Angles_Major_Axis ++ [Val.nan]
    Angle_minor_axis := o.Angle_minor_axis ++ [Val.nan]
    Angle_major_axis := o.Angle_major_axis ++ [Val.nan]
    Ping_number := o.Ping_number ++ [dt.Ping_number]
    Time := o.Time ++ [dt.Time]
    nb_valid_targets := o.nb_valid_targets
    idx_target_lin := o.idx_target_lin ++ [dt.idx_target_lin]
    pulse_env_before_lin := o.pulse_env_before_lin ++ [dt.pulse_env_before]
    pulse_env_after_lin := o.pulse_env_after_lin ++ [dt.pulse_env_after]
    PulseLength_Normalized_PLDL := o.PulseLength_Normalized_PLDL ++ [dt.PL_norm]
    Transmitted_pulse_length := o.Transmitted_pulse_length ++ [dt.plen]
    Heave := o.Heave ++ [dt.Heave]
    Roll := o.Roll ++ [dt.Roll]
    Pitch := o.Pitch ++ [dt.Pitch]
    Heading := o.Heading ++ [dt.Heading]
    Dist := o.Dist ++ [dt.Dist] }

/-- The full variant-B run (after parameter parsing). -/
def runB (P : ParamsB) (I : InputB) (lg : ℚ → ℚ) : StStruct :=
  finalize ((detsB P I lg).foldl appendDetB initStStruct)

/-- The argument-parsing phase of detect_matecho (lines 52-56): `params`
itself and the channel selector are required; no range validation is
performed. -/
def parsePhaseB (paramsGiven : Bool) (channel : Option ℕ) : Except DetErr Unit :=
  if ¬paramsGiven then .error (.missingParam "params is required.")
  else match channel with
    | none => .error (.missingParam "params['channel'] is required.")
    | some _ => .ok ()

/-- detect_matecho end to end. -/
def detectMatecho (paramsGiven : Bool) (channel : Option ℕ) (P : ParamsB)
    (I : InputB) (lg : ℚ → ℚ) : Except DetErr StStruct :=
  match parsePhaseB paramsGiven channel with
  | .error e => .error e
  | .ok _ => .ok (runB P I lg)

/-!  Concrete runs used by witnesses and counterexamples.  The log10 stand-in
`lg0` is the constant-zero function; in example A every accepted peak has
effective range exactly 1, where the true log10 also vanishes, and in the
variant-B examples the property checked is independent of the log10 values. -/

/-- Constant-zero stand-in for log10. -/
def lg0 : ℚ → ℚ := fun _ => 0

/-- Example frame A1: one ping, nine samples, a single echo of width 4
peaking at sample 4 with -30 dB, depth at the peak 1.375 m so that the
effective range is 1.375 - 1500*0.001/4 = 1. -/
def exFrameA1 : FrameA :=
  { Sv := [[some (-100), some (-100), some (-100), some (-32), some (-30),
            some (-31), some (-33), some (-100), some (-100)]],
    depth := [[some 1, some (11/10), some (12/10), some (13/10), some (1375/1000),
               some (14/10), some (15/10), some (16/10), some (17/10)]],
    times := [0], nbSamples := 9 }

/-- Example parameters A: defaults with Np = 5 supplied. -/
def exParamsA : ParamsA := { NpOpt := some 5 }

/-- Example bottom line for frame A1: bottom depth 1.55, first crossing at
sample 7 (depth 1.6). -/
def exBottomA1 : List Val := [some (155/100)]

/-- Example frame A2: like A1 but with an echo of width 3 (samples 3-5). -/
def exFrameA2 : FrameA :=
  { Sv := [[some (-100), some (-100), some (-100), some (-32), some (-30),
            some (-31), some (-100), some (-100), some (-100)]],
    depth := [[some 1, some (11/10), some (12/10), some (13/10), some (1375/1000),
               some (14/10), some (15/10), some (16/10), some (17/10)]],
    times := [0], nbSamples := 9 }

/-- Example input B1: one ping, twelve samples at 0.25 m depth steps from 3 m,
an echo peaking at sample 9 (-30 dB) with 6-dB width 3 (samples 8-10), and a
bottom line at 5.7 m whose first crossing is sample 11 (depth 5.75). -/
def exInputB1 : InputB :=
  { Sv := [[some (-100), some (-100), some (-100), some (-100), some (-100),
            some (-100), some (-100), some (-100), some (-32), some (-30),
            some (-33), some (-100)]],
    depth := [(List.range 12).map (fun i => some (3 + (i : ℚ) / 4))],
    times := [0], nbSamples := 12,
    bottom := some [some (57/10)] }

/-- Example parameters B (defaults; the beamwidths are unused because the
example inputs carry no angle matrices). -/
def exParamsB : ParamsB :=
  { beamwidth_along_3dB_rad := 1, beamwidth_athwart_3dB_rad := 1 }

/-- Variant-B parameters with an out-of-range TS_threshold (-200 dB). -/
def exParamsBbad : ParamsB :=
  { beamwidth_along_3dB_rad := 1, beamwidth_athwart_3dB_rad := 1,
    TS_threshold := -200 }

/-- Example input B2: one ping, three samples; every candidate is excluded by
the leading-sample guard, so the run yields no detection. -/
def exInputB2 : InputB :=
  { Sv := [[some (-100), some (-30), some (-100)]],
    depth := [[some 1, some (5/4), some (3/2)]],
    times := [0], nbSamples := 3 }

/-!  Structural lemmas about the accumulator. -/

/-- Folding variant-A appends over a detection list extends exactly the
sixteen appended lists, in order. -/
theorem foldl_appendDetA (l : List DetA) (o : StStruct) :
    l.foldl appendDetA o = { o with
      TS_comp := o.TS_comp ++ l.map DetA.TS_comp
      TS_uncomp := o.TS_uncomp ++ l.map DetA.TS_uncomp
      Target_range := o.Target_range ++ l.map DetA.Target_range
      Target_range_disp := o.Target_range_disp ++ l.map DetA.Target_range_disp
      Target_range_min := o.Target_range_min ++ l.map DetA.Target_range_min
      Target_range_max := o.Target_range_max ++ l.map DetA.Target_range_max
      idx_r := o.idx_r ++ l.map DetA.idx_r
      Ping_number := o.Ping_number ++ l.map DetA.Ping_number
      Time := o.Time ++ l.map DetA.Time
      idx_target_lin := o.idx_target_lin ++ l.map DetA.idx_target_lin
      pulse_env_before_lin := o.pulse_env_before_lin ++ l.map DetA.pulse_env_before
      pulse_env_after_lin := o.pulse_env_after_lin ++ l.map DetA.pulse_env_after
      PulseLength_Normalized_PLDL :=
        o.PulseLength_Normalized_PLDL ++ l.map DetA.PL_norm
      Transmitted_pulse_length := o.Transmitted_pulse_length ++ l.map DetA.plen
      StandDev_Angles_Minor_Axis :=
        o.StandDev_Angles_Minor_Axis ++ l.map (fun _ => Val.nan)
      StandDev_Angles_Major_Axis :=
        o.StandDev_Angles_Major_Axis ++ l.map (fun _ => Val.nan) } := by
  induction l generalizing o with
  | nil => simp
  | cons d t ih => simp [List.foldl_cons, ih, appendDetA]

/-- Folding variant-B appends extends all twenty-three per-detection lists. -/
theorem foldl_appendDetB (l : List DetB) (o : StStruct) :
    l.foldl appendDetB o = { o with
      TS_comp := o.TS_comp ++ l.map DetB.TS_comp
      TS_uncomp := o.TS_uncomp ++ l.map DetB.TS_uncomp
      Target_range := o.Target_range ++ l.map DetB.Target_range
      Target_range_disp := o.Target_range_disp ++ l.map DetB.Target_range_disp
      Target_range_min := o.Target_range_min ++ l.map DetB.Target_range_min
      Target_range_max := o.Target_range_max ++ l.map DetB.Target_range_max
      idx_r := o.idx_r ++ l.map DetB.idx_r
      StandDev_Angles_Minor_Axis :=
        o.StandDev_Angles_Minor_Axis ++ l.map (fun _ => Val.nan)
      StandDev_Angles_Major_Axis :=
        o.StandDev_Angles_Major_Axis ++ l.map (fun _ => Val.nan)
      Angle_minor_axis := o.Angle_minor_axis ++ l.map (fun _ => Val.nan)
      Angle_major_axis := o.Angle_major_axis ++ l.map (fun _ => Val.nan)
      Ping_number := o.Ping_number ++ l.map DetB.Ping_number
      Time := o.Time ++ l.map DetB.Time
      idx_target_lin := o.idx_target_lin ++ l.map DetB.idx_target_lin
      pulse_env_before_lin := o.pulse_env_before_lin ++ l.map DetB.pulse_env_before
      pulse_env_after_lin := o.pulse_env_after_lin ++ l.map DetB.pulse_env_after
      PulseLength_Normalized_PLDL :=
        o.PulseLength_Normalized_PLDL ++ l.map DetB.PL_norm
      Transmitted_pulse_length := o.Transmitted_pulse_length ++ l.map DetB.plen
      Heave := o.Heave ++ l.map DetB.Heave
      Roll := o.Roll ++ l.map DetB.Roll
      Pitch := o.Pitch ++ l.map DetB.Pitch
      Heading := o.Heading ++ l.map DetB.Heading
      Dist := o.Dist ++ l.map DetB.Dist } := by
  induction l generalizing o with
  | nil => simp
  | cons d t ih => simp [List.foldl_cons, ih, appendDetB]

/-!  Claim C2. -/

/-- Claim C2 counterexample: in variant A a fully validated detection is
appended (TS_comp has one entry) while the Angle_minor_axis list — a
per-detection list of the returned structure — receives nothing, because the
angle/navigation appends are commented out in the source; the per-detection
lists of the result therefore do not all have the same length. -/
theorem claim_C2_counterexample :
    (runA exParamsA exFrameA1 (some exBottomA1) lg0 0).TS_comp.length = 1 ∧
    (runA exParamsA exFrameA1 (some exBottomA1) lg0 0).Angle_minor_axis.length = 0 := by
  with_unfolding_all decide

/-- Claim C2 (amended): a validated candidate is appended to all fields
together and a rejected one to none, so in variant B all twenty-three
per-detection lists end with the same length; in variant A only the sixteen
lists actually appended (everything except the angle-at-peak and navigation
lists, whose appends are commented out) share the same length, the
Angle_minor/major_axis and Heave/Roll/Pitch/Heading/Dist lists staying
empty; nb_valid_targets equals the common detection count in both. -/
theorem claim_C2 :
    (∀ (P : ParamsA) (F : FrameA) (B : Option (List Val)) (lg : ℚ → ℚ) (a : ℚ),
      ((runA P F B lg a).TS_uncomp.length = (runA P F B lg a).TS_comp.length ∧
       (runA P F B lg a).Target_range.length = (runA P F B lg a).TS_comp.length ∧
       (runA P F B lg a).Target_range_disp.length = (runA P F B lg a).TS_comp.length ∧
       (runA P F B lg a).Target_range_min.length = (runA P F B lg a).TS_comp.length ∧
       (runA P F B lg a).Target_range_max.length = (runA P F B lg a).TS_comp.length ∧
       (runA P F B lg a).idx_r.length = (runA P F B lg a).TS_comp.length ∧
       (runA P F B lg a).Ping_number.length = (runA P F B lg a).TS_comp.length ∧
       (runA P F B lg a).Time.length = (runA P F B lg a).TS_comp.length ∧
       (runA P F B lg a).idx_target_lin.length = (runA P F B lg a).TS_comp.length ∧
       (runA P F B lg a).pulse_env_before_lin.length = (runA P F B lg a).TS_comp.length ∧
       (runA P F B lg a).pulse_env_after_lin.length = (runA P F B lg a).TS_comp.length ∧
       (runA P F B lg a).PulseLength_Normalized_PLDL.length
         = (runA P F B lg a).TS_comp.length ∧
       (runA P F B lg a).Transmitted_pulse_length.length
         = (runA P F B lg a).TS_comp.length ∧
       (runA P F B lg a).StandDev_Angles_Minor_Axis.length
         = (runA P F B lg a).TS_comp.length ∧
       (runA P F B lg a).StandDev_Angles_Major_Axis.length
         = (runA P F B lg a).TS_comp.length ∧
       (runA P F B lg a).nb_valid_targets = (runA P F B lg a).TS_comp.length) ∧
      (runA P F B lg a).Angle_minor_axis = [] ∧
      (runA P F B lg a).Angle_major_axis = [] ∧
      (runA P F B lg a).Heave = [] ∧
      (runA P F B lg a).Roll = [] ∧
      (runA P F B lg a).Pitch = [] ∧
      (runA P F B lg a).Heading = [] ∧
      (runA P F B lg a).Dist = []) ∧
    (∀ (P : ParamsB) (I : InputB) (lg : ℚ → ℚ),
      (runB P I lg).TS_uncomp.length = (runB P I lg).TS_comp.length ∧
      (runB P I lg).Target_range.length = (runB P I lg).TS_comp.length ∧
      (runB P I lg).Target_range_disp.length = (runB P I lg).TS_comp.length ∧
      (runB P I lg).Target_range_min.length = (runB P I lg).TS_comp.length ∧
      (runB P I lg).Target_range_max.length = (runB P I lg).TS_comp.length ∧
      (runB P I lg).idx_r.length = (runB P I lg).TS_comp.length ∧
      (runB P I lg).StandDev_Angles_Minor_Axis.length = (runB P I lg).TS_comp.length ∧
      (runB P I lg).StandDev_Angles_Major_Axis.length = (runB P I lg).TS_comp.length ∧
      (runB P I lg).Angle_minor_axis.length = (runB P I lg).TS_comp.length ∧
      (runB P I lg).Angle_major_axis.length = (runB P I lg).TS_comp.length ∧
      (runB P I lg).Ping_number.length = (runB P I lg).TS_comp.length ∧
      (runB P I lg).Time.length = (runB P I lg).TS_comp.length ∧
      (runB P I lg).idx_target_lin.length = (runB P I lg).TS_comp.length ∧
      (runB P I lg).pulse_env_before_lin.length = (runB P I lg).TS_comp.length ∧
      (runB P I lg).pulse_env_after_lin.length = (runB P I lg).TS_comp.length ∧
      (runB P I lg).PulseLength_Normalized_PLDL.length = (runB P I lg).TS_comp.length ∧
      (runB P I lg).Transmitted_pulse_length.length = (runB P I lg).TS_comp.length ∧
      (runB P I lg).Heave.length = (runB P I lg).TS_comp.length ∧
      (runB P I lg).Roll.length = (runB P I lg).TS_comp.length ∧
      (runB P I lg).Pitch.length = (runB P I lg).TS_comp.length ∧
      (runB P I lg).Heading.length = (runB P I lg).TS_comp.length ∧
      (runB P I lg).Dist.length = (runB P I lg).TS_comp.length ∧
      (runB P I lg).nb_valid_targets = (runB P I lg).TS_comp.length) := by
  constructor
  · intro P F B lg a
    simp [runA, finalize, foldl_appendDetA, initStStruct]
  · intro P I lg
    simp [runB, finalize, foldl_appendDetB, initStStruct]

/-!  Claim C7. -/

/-- Characterization of `_validate_params`: it succeeds exactly on the
documented parameter window. -/
theorem validA_iff (P : ParamsA) :
    (validateA P).isOk = true ↔
      (P.DataType = "CW" ∧
       -120 ≤ P.TS_threshold ∧ P.TS_threshold ≤ -20 ∧
       1 ≤ P.PLDL ∧ P.PLDL ≤ 30 ∧
       0 ≤ P.MinNormPL ∧ P.MinNormPL ≤ 10 ∧
       0 ≤ P.MaxNormPL ∧ P.MaxNormPL ≤ 10 ∧
       0 < P.block_len) := by
  unfold validateA
  split_ifs with h1 h2 h3 h4 h5 h6 <;>
    simp only [Except.isOk, Except.toBool] <;>
    constructor <;> intro h <;> push_neg at * <;>
    first
      | tauto
      | exact ⟨h1, h2.1, h2.2, h3.1, h3.2, h4.1, h4.2, h5.1, h5.2, h6⟩
      | (obtain ⟨a1, a2, a3, a4, a5, a6, a7, a8, a9, a10⟩ := h
         first
           | exact absurd (h2 a2) (not_lt.mpr a3)
           | exact absurd (h3 a4) (not_lt.mpr a5)
           | exact absurd (h4 a6) (not_lt.mpr a7)
           | exact absurd (h5 a8) (not_lt.mpr a9)
           | exact absurd a10 (not_lt.mpr h6))

/-- Claim C7 counterexample: detect_matecho performs no range validation, so
with TS_threshold = -200 dB — outside the claimed [-120, -20] window — the
variant-B detector raises no configuration error and happily returns a
result. -/
theorem claim_C7_counterexample :
    exParamsBbad.TS_threshold < -120 ∧
    (detectMatecho true (some 0) exParamsBbad exInputB2 lg0).isOk = true := by
  constructor
  · with_unfolding_all decide
  · with_unfolding_all decide

/-- Claim C7 (amended): variant A fail-fast-validates before any block is
processed — its parse phase succeeds exactly when the channel selector is
present, the pulse type is continuous-wave, TS_threshold lies in [-120,-20],
PLDL in [1,30], both normalized-pulse-length bounds in [0,10], and the
memory-budget constant is positive; an absent channel gives
MissingParameterError, and any parse error aborts the run with no partial
result.  Variant B checks only that the parameter map and the channel
selector are present (MissingParameterError otherwise) and performs no range
validation; its parse errors likewise abort with no partial result. -/
theorem claim_C7 :
    (∀ (ch : Option ℕ) (P : ParamsA),
      (parsePhaseA ch P).isOk = true ↔
        (ch.isSome = true ∧ P.DataType = "CW" ∧
         -120 ≤ P.TS_threshold ∧ P.TS_threshold ≤ -20 ∧
         1 ≤ P.PLDL ∧ P.PLDL ≤ 30 ∧
         0 ≤ P.MinNormPL ∧ P.MinNormPL ≤ 10 ∧
         0 ≤ P.MaxNormPL ∧ P.MaxNormPL ≤ 10 ∧
         0 < P.block_len)) ∧
    (∀ P : ParamsA,
      parsePhaseA none P = .error (.missingParam "params['channel'] is required.")) ∧
    (∀ (ch : Option ℕ) (P : ParamsA) (F : FrameA) (B : Option (List Val))
        (lg : ℚ → ℚ) (a : ℚ),
      detectEsp3 ch P F B lg a = (parsePhaseA ch P).map (fun _ => runA P F B lg a)) ∧
    (∀ (pg : Bool) (ch : Option ℕ),
      (parsePhaseB pg ch).isOk = true ↔ (pg = true ∧ ch.isSome = true)) ∧
    (∀ (pg : Bool) (ch : Option ℕ) (P : ParamsB) (I : InputB) (lg : ℚ → ℚ),
      detectMatecho pg ch P I lg = (parsePhaseB pg ch).map (fun _ => runB P I lg)) := by
  refine ⟨?_, ?_, ?_, ?_, ?_⟩
  · intro ch P
    cases ch with
    | none => simp [parsePhaseA, Except.isOk, Except.toBool]
    | some c =>
      simpa only [parsePhaseA, Option.isSome_some, true_and] using validA_iff P
  · intro P
    rfl
  · intro ch P F B lg a
    cases ch with
    | none => rfl
    | some c =>
      simp only [detectEsp3, parsePhaseA]
      cases h : validateA P <;> simp [Except.map]
  · intro pg ch
    cases pg <;> cases ch <;> simp [parsePhaseB, Except.isOk, Except.toBool]
  · intro pg ch P I lg
    cases pg <;> cases ch <;> rfl

/-!  Claim C10. -/

/-- A variant-B candidate is added to the accepted-peaks list `keep` exactly
when a full record is produced for it: passing the depth-band gate forces the
peak row of `rcol` to be finite, so the 6-dB envelope slice always contains a
finite range value and the empty-envelope skip after the append is
unreachable. -/
theorem candResultB_keep_iff (cx : CtxB) (keep : List ℕ) (k : ℕ) :
    (candResultB cx keep k).1 = ((candResultB cx keep k).2).isSome := by
  unfold candResultB
  cases hts : cx.zTS.getD k none with
  | none => rfl
  | some ts =>
    dsimp only
    by_cases h1 : ts ≤ cx.TSthr
    · rw [if_pos h1]
      rfl
    · rw [if_neg h1]
      by_cases h2 : vgt (vsub (some ts) (cx.zTSU.getD k none)) (some (2 * cx.MaxOW)) = true
      · rw [if_pos h2]
        rfl
      · rw [if_neg h2]
        cases hzp : cx.zP.getD k none with
        | none => rfl
        | some base =>
          dsimp only
          set i0 := k - runLeft cx.zP (base - 6) k k with hi0
          set i1 := k + runRight (base - 6) (cx.zP.drop (k + 1)) cx.zP.length with hi1
          by_cases h3 : ((i1 - i0 + 1 : ℕ) : ℤ) < pyRound ((cx.NechP : ℚ) * cx.MinEL) ∨
              pyRound ((cx.NechP : ℚ) * cx.MaxEL) < ((i1 - i0 + 1 : ℕ) : ℤ)
          · rw [if_pos h3]
            rfl
          · rw [if_neg h3]
            by_cases h4 : (decide (∃ kk ∈ keep,
                ((((k : ℤ) - (kk : ℤ)).natAbs : ℤ) < pyRound (cx.MinES * (cx.NechP : ℚ)))) = true)
            · rw [if_pos h4]
              rfl
            · rw [if_neg h4]
              by_cases h5 : ¬(vge (vadd (cx.rcol.getD k none) (vadd (some cx.TD) cx.heaveJ))
                    (some cx.MinD) &&
                  vge (some cx.MaxD)
                    (vadd (cx.rcol.getD k none) (vadd (some cx.TD) cx.heaveJ))) = true
              · rw [if_pos h5]
                rfl
              · rw [if_neg h5]
                rw [not_not] at h5
                have hrc : ∃ rq, cx.rcol.getD k none = some rq := by
                  rcases hdh : cx.rcol.getD k none with _ | rq
                  · rw [hdh] at h5
                    simp [vadd, vge] at h5
                  · exact ⟨rq, rfl⟩
                obtain ⟨rq, hrq⟩ := hrc
                have hklen : k < cx.rcol.length := by
                  by_contra hk
                  rw [List.getD_eq_getElem?_getD, List.getElem?_eq_none (by omega)] at hrq
                  simp at hrq
                have hi0le : i0 ≤ k := Nat.sub_le _ _
                have hget : (cx.rcol.drop i0)[(k - i0)]? = some (some rq) := by
                  rw [List.getElem?_drop]
                  have he : i0 + (k - i0) = k := by omega
                  rw [he]
                  rw [List.getD_eq_getElem?_getD] at hrq
                  rcases hx : cx.rcol[k]? with _ | v
                  · rw [hx] at hrq; simp at hrq
                  · rw [hx] at hrq; simp at hrq; rw [hrq]
                have hmem : (some rq : Val) ∈ (cx.rcol.drop i0).take (i1 - i0 + 1) := by
                  have hlt : k - i0 < i1 - i0 + 1 := by omega
                  have h := List.getElem?_take_of_lt (l := cx.rcol.drop i0)
                    (n := i1 - i0 + 1) (m := k - i0) hlt
                  rw [hget] at h
                  exact List.getElem?_mem h
                have hne : ((cx.rcol.drop i0).take (i1 - i0 + 1)).filterMap id ≠ [] :=
                  List.ne_nil_of_mem (List.mem_filterMap.mpr ⟨some rq, hmem, rfl⟩)
                rcases hseg : ((cx.rcol.drop i0).take (i1 - i0 + 1)).filterMap id with _ | ⟨q, qs⟩
                · exact absurd hseg hne
                · rfl

/-- One step of the variant-B per-ping loop either leaves both the keep list
and the detection list unchanged, or extends both by exactly one entry. -/
theorem pingStepB_both (cx : CtxB) (st : List ℕ × List DetB) (k : ℕ) :
    ((pingStepB cx st k).1.length = st.1.length ∧
     (pingStepB cx st k).2.length = st.2.length) ∨
    ((pingStepB cx st k).1.length = st.1.length + 1 ∧
     (pingStepB cx st k).2.length = st.2.length + 1) := by
  have h := candResultB_keep_iff cx st.1 k
  unfold pingStepB
  rcases hr2 : (candResultB cx st.1 k).2 with _ | d
  · rw [hr2] at h
    simp at h
    simp [h, hr2]
  · rw [hr2] at h
    simp at h
    simp [h, hr2]

/-- Example input B3: like B1 but with no bottom line and with the depth of
the two envelope rows beside the peak (samples 8 and 10) set to NaN, so that
the accepted candidate's 6-dB envelope holds only one finite range row — the
peak row itself. -/
def exInputB3 : InputB :=
  { Sv := [[some (-100), some (-100), some (-100), some (-100), some (-100),
            some (-100), some (-100), some (-100), some (-32), some (-30),
            some (-33), some (-100)]],
    depth := [[some 3, some (13/4), some (7/2), some (15/4), some 4,
               some (17/4), some (9/2), some (19/4), none, some (21/4),
               none, some (23/4)]],
    times := [0], nbSamples := 12 }

/-- The per-ping context of example B3 (single block, ping 0). -/
def exCtxB3 : CtxB :=
  mkCtxB exParamsB exInputB3 lg0 (idxRBlock exInputB3.toFrame exInputB3.bottom [0]) 0

/-- Claim C10 counterexample: at the concrete input built to realize the
claim's scenario — a candidate that passes every gate while every envelope
row beside its peak has a non-finite range — the candidate is added to keep
AND a full record is appended for it (it contributes to nb_valid_targets),
contrary to the claim; the peak row itself is forced finite by the
depth-band gate, so the claimed all-non-finite envelope cannot occur. -/
theorem claim_C10_counterexample :
    ((candResultB exCtxB3 [] 9).1 = true ∧
      ((candResultB exCtxB3 [] 9).2).isSome = true) ∧
    ((exCtxB3.rcol.getD 8 none).isSome = false ∧
      (exCtxB3.rcol.getD 10 none).isSome = false) ∧
    (runB exParamsB exInputB3 lg0).nb_valid_targets = 1 ∧
    (runB exParamsB exInputB3 lg0).idx_r = [9] := by
  with_unfolding_all decide

/-- Claim C10 (amended): no candidate can pass every gate yet have an
envelope without a finite range value — the depth-band gate requires a
finite peak range, which lies in the envelope rows.  Consequently the
empty-envelope skip after `keep.append` is dead code and, over any full
per-ping run of variant B, the accepted-peaks list used for the
minimum-spacing check and the list of fully appended detections have exactly
the same length: every suppressing peak also contributes to every output
field and to nb_valid_targets. -/
theorem claim_C10 :
    (∀ (cx : CtxB) (st : List ℕ × List DetB) (k : ℕ),
      (pingStepB cx st k).1.length - st.1.length =
        (pingStepB cx st k).2.length - st.2.length) ∧
    (∀ cx : CtxB, (pingRunB cx).1.length = (pingRunB cx).2.length) := by
  constructor
  · intro cx st k
    rcases pingStepB_both cx st k with ⟨h1, h2⟩ | ⟨h1, h2⟩ <;> omega
  intro cx
  unfold pingRunB
  split_ifs with h
  · have main : ∀ (l : List ℕ) (st : List ℕ × List DetB),
        st.1.length = st.2.length →
        (l.foldl (pingStepB cx) st).1.length = (l.foldl (pingStepB cx) st).2.length := by
      intro l
      induction l with
      | nil => intro st hst; exact hst
      | cons a t ih =>
        intro st hst
        simp only [List.foldl_cons]
        apply ih
        rcases pingStepB_both cx st a with ⟨h1, h2⟩ | ⟨h1, h2⟩ <;> omega
    exact main _ ([], []) rfl
  · rfl

/-!  Claim C3. -/

/-- math.ceil of a natural division, as the usual natural-number formula. -/
theorem ceil_div_nat (n b : ℕ) (hb : 0 < b) :
    ⌈(n : ℚ) / (b : ℚ)⌉ = (((n + b - 1) / b : ℕ) : ℤ) := by
  have hbq : (0 : ℚ) < (b : ℚ) := by exact_mod_cast hb
  have hq : ((n + b - 1) / b) * b + (n + b - 1) % b = n + b - 1 := by
    rw [mul_comm]; exact Nat.div_add_mod (n + b - 1) b
  have hm : (n + b - 1) % b < b := Nat.mod_lt _ hb
  set q := (n + b - 1) / b with hqdef
  have h2 : n ≤ q * b := by omega
  have h1 : q * b < n + b := by omega
  rw [Int.ceil_eq_iff]
  constructor
  · rw [lt_div_iff₀ hbq]
    have : ((q * b : ℕ) : ℚ) < ((n + b : ℕ) : ℚ) := by exact_mod_cast h1
    push_cast at this ⊢
    linarith
  · rw [div_le_iff₀ hbq]
    have : ((n : ℕ) : ℚ) ≤ ((q * b : ℕ) : ℚ) := by exact_mod_cast h2
    push_cast at this ⊢
    linarith

/-- The first k block ranges tile [0, min(k*block_size, nPings)) contiguously. -/
theorem blockRanges_cover_aux (b n : ℕ) (k : ℕ) :
    ((List.range k).map (blockRange b n)).flatMap (fun r => List.range' r.1 (r.2 - r.1)) =
      List.range' 0 (min (k * b) n) := by
  induction k with
  | zero => simp
  | succ k ih =>
    rw [List.range_succ, List.map_append, List.flatMap_append, ih]
    simp only [List.map_cons, List.map_nil, List.flatMap_cons, List.flatMap_nil,
      List.append_nil, blockRange]
    have hkb : k * b ≤ (k + 1) * b := Nat.mul_le_mul_right b (Nat.le_succ k)
    rcases le_or_lt n (k * b) with h | h
    · have h1 : min (k * b) n = n := min_eq_right h
      have h3 : min ((k + 1) * b) n = n := min_eq_right (le_trans h hkb)
      rw [h1, h3, show n - k * b = 0 by omega]
      simp
    · have h1 : min (k * b) n = k * b := min_eq_left h.le
      rw [h1]
      have hle : k * b ≤ min ((k + 1) * b) n := le_min hkb h.le
      have happ := List.range'_append 0 (k * b) (min ((k + 1) * b) n - k * b) 1
      rw [show 0 + 1 * (k * b) = k * b by omega] at happ
      rw [Nat.sub_add_cancel hle] at happ
      exact happ

/-- Claim C3: with at least one ping and a positive memory budget, the block
size is min(ceil(block_len / cells_per_ping), total_pings) and is at least 1,
both variants iterate ceil(total_pings / block_size) blocks, the iterated
ping ranges cover [0, total_pings) exactly once, contiguously, in increasing
order, and every block except possibly the last spans exactly block_size
pings. -/
theorem claim_C3 :
    ∀ (blockLen : ℚ) (nA nP : ℕ), 1 ≤ nP → 0 < blockLen →
      1 ≤ blockSize blockLen nA nP ∧
      blockSize blockLen nA nP = min ⌈blockLen / (cellsPerPing nA : ℚ)⌉ (nP : ℤ) ∧
      numIteA blockLen nA nP = numIteB blockLen nA nP ∧
      ((numIteA blockLen nA nP : ℕ) : ℤ) =
        ⌈(nP : ℚ) / ((blockSize blockLen nA nP : ℤ) : ℚ)⌉ ∧
      ((blockRanges (blockSize blockLen nA nP).toNat nP (numIteA blockLen nA nP)).flatMap
          (fun r => List.range' r.1 (r.2 - r.1))) = List.range nP ∧
      (∀ ui, ui + 1 < numIteA blockLen nA nP →
        (blockRange (blockSize blockLen nA nP).toNat nP ui).2 -
          (blockRange (blockSize blockLen nA nP).toNat nP ui).1 =
            (blockSize blockLen nA nP).toNat) := by
  intro blockLen nA nP hnP hbl
  have hcpp : (0 : ℚ) < ((cellsPerPing nA : ℕ) : ℚ) := by
    have h1 : 1 ≤ cellsPerPing nA := le_max_left 1 nA
    exact_mod_cast lt_of_lt_of_le zero_lt_one (by exact_mod_cast h1)
  have hceil : 1 ≤ ⌈blockLen / (cellsPerPing nA : ℚ)⌉ :=
    Int.ceil_pos.mpr (div_pos hbl hcpp)
  have hbs : 1 ≤ blockSize blockLen nA nP :=
    le_min hceil (by exact_mod_cast hnP)
  set b : ℕ := (blockSize blockLen nA nP).toNat with hbdef
  have hb1 : 1 ≤ b := by omega
  have hbsb : blockSize blockLen nA nP = (b : ℤ) := by omega
  have hIA : numIteA blockLen nA nP = (⌈(nP : ℚ) / (b : ℚ)⌉).toNat := by
    unfold numIteA
    rw [if_pos (by omega : (0 : ℤ) < blockSize blockLen nA nP), hbsb]
    push_cast
    rfl
  have hIB : numIteB blockLen nA nP = (⌈(nP : ℚ) / (b : ℚ)⌉).toNat := by
    unfold numIteB
    dsimp only
    rw [max_eq_left hbs, hbsb]
    push_cast
    rfl
  have hceilq := ceil_div_nat nP b hb1
  set k : ℕ := (nP + b - 1) / b with hkdef
  have hIk : numIteA blockLen nA nP = k := by
    rw [hIA, hceilq]; simp
  have hq : k * b + (nP + b - 1) % b = nP + b - 1 := by
    rw [mul_comm]; exact Nat.div_add_mod (nP + b - 1) b
  have hm : (nP + b - 1) % b < b := Nat.mod_lt _ hb1
  refine ⟨hbs, rfl, by rw [hIA, hIB], ?_, ?_, ?_⟩
  · have hnn : 0 ≤ ⌈(nP : ℚ) / (b : ℚ)⌉ :=
      Int.ceil_nonneg (div_nonneg (by positivity) (by positivity))
    rw [hIA, hbsb, Int.toNat_of_nonneg hnn]
    push_cast
    rfl
  · rw [hIk]
    unfold blockRanges
    rw [blockRanges_cover_aux]
    have hkb : nP ≤ k * b := by omega
    rw [min_eq_right hkb, ← List.range_eq_range']
  · intro ui hui
    rw [hIk] at hui
    unfold blockRange
    dsimp only
    have hC : (ui + 1) * b = ui * b + b := by ring
    have hA : (k - 1) * b + b = k * b := by
      have hk1 : 1 ≤ k := by omega
      calc (k - 1) * b + b = ((k - 1) + 1) * b := by ring
      _ = k * b := by rw [Nat.sub_add_cancel hk1]
    have hmul : (ui + 1) * b ≤ (k - 1) * b := Nat.mul_le_mul_right b (by omega)
    have hle : (ui + 1) * b ≤ nP := by omega
    rw [min_eq_left hle]
    omega

/-- Claim C3 witness at blockLen = 7, nA = 3, nP = 5 (block size 3, two
blocks (0,3) and (3,5)). -/
theorem claim_C3_witness :
    ((1 : ℕ) ≤ 5 ∧ (0 : ℚ) < 7) ∧
    (1 ≤ blockSize 7 3 5 ∧
     blockSize 7 3 5 = min ⌈(7 : ℚ) / (cellsPerPing 3 : ℚ)⌉ (5 : ℤ) ∧
     numIteA 7 3 5 = numIteB 7 3 5 ∧
     ((numIteA 7 3 5 : ℕ) : ℤ) = ⌈(5 : ℚ) / ((blockSize 7 3 5 : ℤ) : ℚ)⌉ ∧
     ((blockRanges (blockSize 7 3 5).toNat 5 (numIteA 7 3 5)).flatMap
         (fun r => List.range' r.1 (r.2 - r.1))) = List.range 5 ∧
     (∀ ui, ui + 1 < numIteA 7 3 5 →
       (blockRange (blockSize 7 3 5).toNat 5 ui).2 -
         (blockRange (blockSize 7 3 5).toNat 5 ui).1 = (blockSize 7 3 5).toNat)) :=
  ⟨⟨by norm_num, by norm_num⟩, claim_C3 7 3 5 (by norm_num) (by norm_num)⟩

/-!  Membership and inversion lemmas for the two detector cores. -/

theorem pingDetsA_mem {cx : CtxA} {d : DetA} (h : d ∈ pingDetsA cx) :
    ∃ k, k ∈ keepA cx.Np cx.z ∧ processCandA cx k = some d := by
  unfold pingDetsA at h
  split_ifs at h with hlen
  · simp at h
  · exact List.mem_filterMap.mp h

theorem blockDetsA_mem {P : ParamsA} {F : FrameA} {B : Option (List Val)}
    {lg : ℚ → ℚ} {a : ℚ} {r : ℕ × ℕ} {d : DetA}
    (h : d ∈ blockDetsA P F B lg a r) :
    ∃ p nRows, p ∈ blockPings r ∧
      d ∈ pingDetsA (mkCtxA P F B lg a (idxRBlock F B (blockPings r)) nRows p) := by
  unfold blockDetsA at h
  dsimp only at h
  split_ifs at h with hval
  · rcases List.mem_flatMap.mp h with ⟨p, hp, hd⟩
    exact ⟨p, _, hp, hd⟩
  · simp at h

theorem detsA_mem {P : ParamsA} {F : FrameA} {B : Option (List Val)}
    {lg : ℚ → ℚ} {a : ℚ} {d : DetA} (h : d ∈ detsA P F B lg a) :
    ∃ r p nRows,
      r ∈ blockRanges (blockSize P.block_len (idxRTot F B).length F.nbPings).toNat
            F.nbPings (numIteA P.block_len (idxRTot F B).length F.nbPings) ∧
      p ∈ blockPings r ∧
      d ∈ pingDetsA (mkCtxA P F B lg a (idxRBlock F B (blockPings r)) nRows p) := by
  unfold detsA at h
  rcases List.mem_flatMap.mp h with ⟨r, hr, hd⟩
  rcases blockDetsA_mem hd with ⟨p, nRows, hp, hping⟩
  exact ⟨r, p, nRows, hr, hp, hping⟩

theorem processCandA_inv {cx : CtxA} {k : ℕ} {d : DetA}
    (h : processCandA cx k = some d) :
    ∃ pk, cx.z.getD k none = some pk ∧ cx.TSthr < pk ∧
      d.Ping_number = cx.pingGlob ∧ d.idx_r = cx.idxL.getD k 0 ∧
      d.plen = 1 + runLeft cx.z (pk - cx.PLDL) k cx.maxLen.toNat
        + runRight (pk - cx.PLDL) (cx.z.drop (k + 1)) cx.maxLen.toNat ∧
      cx.minLen ≤ (d.plen : ℤ) ∧ (d.plen : ℤ) ≤ cx.maxLen ∧
      ∃ rpeak, d.Target_range = some rpeak ∧ 0 < rpeak - cx.c * cx.T / 4 ∧
        d.TS_uncomp = some (pk + (40 * cx.lg (rpeak - cx.c * cx.T / 4)
          + 2 * cx.alpha * (rpeak - cx.c * cx.T / 4))) ∧
        d.TS_comp = d.TS_uncomp ∧
        ∃ q, d.TS_comp = some q ∧ cx.TSthr < q := by
  unfold processCandA at h
  cases hz : cx.z.getD k none with
  | none => rw [hz] at h; exact absurd h (by simp)
  | some pk =>
    rw [hz] at h
    dsimp only at h
    refine ⟨pk, rfl, ?_⟩
    set thr := pk - cx.PLDL with hthr
    set left := runLeft cx.z thr k cx.maxLen.toNat with hleft
    set right := runRight thr (cx.z.drop (k + 1)) cx.maxLen.toNat with hright
    by_cases h1 : pk ≤ cx.TSthr
    · rw [if_pos h1] at h; exact absurd h (by simp)
    · rw [if_neg h1] at h
      refine ⟨not_le.mp h1, ?_⟩
      by_cases h2 : ((1 + left + right : ℕ) : ℤ) < cx.minLen ∨
          cx.maxLen < ((1 + left + right : ℕ) : ℤ)
      · rw [if_pos h2] at h; exact absurd h (by simp)
      · rw [if_neg h2] at h
        push_neg at h2
        rcases hseg : ((cx.d.drop (k - left)).take (left + right + 1)).filterMap id
            with _ | ⟨q0, qs⟩
        · rw [hseg] at h; exact absurd h (by simp)
        · rw [hseg] at h
          dsimp only at h
          set rmin := qs.foldl min q0 with hrmin
          set rmax := qs.foldl max q0 with hrmax
          set rpeak := (match cx.d.getD k none with
            | some dv => dv
            | none => (rmin + rmax) / 2) with hrpeak
          set reff := rpeak - cx.c * cx.T / 4 with hreff
          by_cases h3 : reff ≤ 0
          · rw [if_pos h3] at h; exact absurd h (by simp)
          · rw [if_neg h3] at h
            set tvg := 40 * cx.lg reff + 2 * cx.alpha * reff with htvg
            set tsu := pk + tvg with htsu
            by_cases h4 : tsu ≤ cx.TSthr
            · rw [if_pos h4] at h; exact absurd h (by simp)
            · rw [if_neg h4] at h
              injection h with hrec
              subst hrec
              refine ⟨rfl, rfl, rfl, h2.1, h2.2, rpeak, rfl, not_le.mp h3, ?_, rfl,
                tsu, rfl, not_le.mp h4⟩
              rw [htsu, htvg, hreff]

theorem foldB_mem {cx : CtxB} :
    ∀ (l : List ℕ) (st : List ℕ × List DetB) (d : DetB),
      d ∈ (l.foldl (pingStepB cx) st).2 →
      d ∈ st.2 ∨ ∃ keep k, (candResultB cx keep k).2 = some d := by
  intro l
  induction l with
  | nil => intro st d hd; exact Or.inl hd
  | cons a t ih =>
    intro st d hd
    rw [List.foldl_cons] at hd
    rcases ih _ d hd with hin | hex
    · unfold pingStepB at hin
      dsimp only at hin
      rcases hrec : (candResultB cx st.1 a).2 with _ | drec
      · rw [hrec] at hin
        exact Or.inl hin
      · rw [hrec] at hin
        rcases List.mem_append.mp hin with hin1 | hin2
        · exact Or.inl hin1
        · rcases List.mem_singleton.mp hin2 with rfl
          exact Or.inr ⟨st.1, a, hrec⟩
    · exact Or.inr hex

theorem pingRunB_mem {cx : CtxB} {d : DetB} (h : d ∈ (pingRunB cx).2) :
    ∃ keep k, (candResultB cx keep k).2 = some d := by
  unfold pingRunB at h
  split_ifs at h with hf
  · rcases foldB_mem _ _ _ h with habs | hex
    · simp at habs
    · exact hex
  · simp at h

theorem blockDetsB_mem {P : ParamsB} {I : InputB} {lg : ℚ → ℚ} {r : ℕ × ℕ} {d : DetB}
    (h : d ∈ blockDetsB P I lg r) :
    ∃ p keep k, p ∈ blockPings r ∧
      (candResultB (mkCtxB P I lg (idxRBlock I.toFrame I.bottom (blockPings r)) p)
        keep k).2 = some d := by
  unfold blockDetsB at h
  dsimp only at h
  rcases List.mem_flatMap.mp h with ⟨p, hp, hd⟩
  rcases pingRunB_mem hd with ⟨keep, k, hk⟩
  exact ⟨p, keep, k, hp, hk⟩

theorem detsB_mem {P : ParamsB} {I : InputB} {lg : ℚ → ℚ} {d : DetB}
    (h : d ∈ detsB P I lg) :
    ∃ r p keep k,
      r ∈ blockRanges (blockSize P.block_len (idxRTot I.toFrame I.bottom).length
            I.nbPings).toNat I.nbPings
            (numIteB P.block_len (idxRTot I.toFrame I.bottom).length I.nbPings) ∧
      p ∈ blockPings r ∧
      (candResultB (mkCtxB P I lg (idxRBlock I.toFrame I.bottom (blockPings r)) p)
        keep k).2 = some d := by
  unfold detsB at h
  rcases List.mem_flatMap.mp h with ⟨r, hr, hd⟩
  rcases blockDetsB_mem hd with ⟨p, keep, k, hp, hk⟩
  exact ⟨r, p, keep, k, hr, hp, hk⟩

theorem candResultB_inv {cx : CtxB} {keep : List ℕ} {k : ℕ} {d : DetB}
    (h : (candResultB cx keep k).2 = some d) :
    ∃ ts, cx.zTS.getD k none = some ts ∧ cx.TSthr < ts ∧ d.TS_comp = some ts ∧
      d.Ping_number = cx.pingGlob ∧ d.idx_r = cx.idxL.getD k 0 ∧
      k < cx.zTS.length ∧
      (∀ kk ∈ keep,
        pyRound (cx.MinES * (cx.NechP : ℚ)) ≤ (((k : ℤ) - (kk : ℤ)).natAbs : ℤ)) := by
  unfold candResultB at h
  cases hts : cx.zTS.getD k none with
  | none => rw [hts] at h; exact absurd h (by simp)
  | some ts =>
    rw [hts] at h
    dsimp only at h
    have hk : k < cx.zTS.length := by
      by_contra hkk
      rw [List.getD_eq_getElem?_getD, List.getElem?_eq_none (by omega)] at hts
      simp at hts
    refine ⟨ts, rfl, ?_⟩
    by_cases h1 : ts ≤ cx.TSthr
    · rw [if_pos h1] at h; exact absurd h (by simp)
    · rw [if_neg h1] at h
      by_cases h2 : vgt (vsub (some ts) (cx.zTSU.getD k none)) (some (2 * cx.MaxOW)) = true
      · rw [if_pos h2] at h; exact absurd h (by simp)
      · rw [if_neg h2] at h
        cases hzp : cx.zP.getD k none with
        | none => rw [hzp] at h; exact absurd h (by simp)
        | some base =>
          rw [hzp] at h
          dsimp only at h
          set i0 := k - runLeft cx.zP (base - 6) k k with hi0
          set i1 := k + runRight (base - 6) (cx.zP.drop (k + 1)) cx.zP.length with hi1
          by_cases h3 : ((i1 - i0 + 1 : ℕ) : ℤ) < pyRound ((cx.NechP : ℚ) * cx.MinEL) ∨
              pyRound ((cx.NechP : ℚ) * cx.MaxEL) < ((i1 - i0 + 1 : ℕ) : ℤ)
          · rw [if_pos h3] at h; exact absurd h (by simp)
          · rw [if_neg h3] at h
            by_cases h4 : (decide (∃ kk ∈ keep,
                ((((k : ℤ) - (kk : ℤ)).natAbs : ℤ) <
                  pyRound (cx.MinES * (cx.NechP : ℚ)))) = true)
            · rw [if_pos h4] at h; exact absurd h (by simp)
            · rw [if_neg h4] at h
              have hsp : ∀ kk ∈ keep,
                  pyRound (cx.MinES * (cx.NechP : ℚ)) ≤ (((k : ℤ) - (kk : ℤ)).natAbs : ℤ) := by
                intro kk hkk
                by_contra hc
                exact h4 (decide_eq_true ⟨kk, hkk, not_le.mp hc⟩)
              by_cases h5 : ¬(vge (vadd (cx.rcol.getD k none) (vadd (some cx.TD) cx.heaveJ))
                    (some cx.MinD) &&
                  vge (some cx.MaxD)
                    (vadd (cx.rcol.getD k none) (vadd (some cx.TD) cx.heaveJ))) = true
              · rw [if_pos h5] at h; exact absurd h (by simp)
              · rw [if_neg h5] at h
                rcases hseg : ((cx.rcol.drop i0).take (i1 - i0 + 1)).filterMap id
                    with _ | ⟨q0, qs⟩
                · rw [hseg] at h; exact absurd h (by simp)
                · rw [hseg] at h
                  dsimp only at h
                  injection h with hrec
                  subst hrec
                  exact ⟨not_le.mp h1, rfl, rfl, rfl, hk, hsp⟩

theorem claim_C1 :
    (∀ (P : ParamsA) (F : FrameA) (B : Option (List Val)) (lg : ℚ → ℚ) (a : ℚ),
      ∀ v ∈ (runA P F B lg a).TS_comp, ∃ q, v = some q ∧ P.TS_threshold < q) ∧
    (∀ (P : ParamsB) (I : InputB) (lg : ℚ → ℚ),
      ∀ v ∈ (runB P I lg).TS_comp, ∃ q, v = some q ∧ P.TS_threshold < q) := by
  constructor
  · intro P F B lg a v hv
    have hproj : (runA P F B lg a).TS_comp = (detsA P F B lg a).map DetA.TS_comp := by
      simp [runA, finalize, foldl_appendDetA, initStStruct]
    rw [hproj] at hv
    rcases List.mem_map.mp hv with ⟨d, hd, rfl⟩
    rcases detsA_mem hd with ⟨r, p, nRows, hr, hp, hping⟩
    rcases pingDetsA_mem hping with ⟨k, hkeep, hcand⟩
    rcases processCandA_inv hcand with
      ⟨pk, hz, hpk, hping2, hidx, hplen, hmin, hmax, rpeak, hr2, hre, hun, hce, q, hq, hlt⟩
    exact ⟨q, hq, hlt⟩
  · intro P I lg v hv
    have hproj : (runB P I lg).TS_comp = (detsB P I lg).map DetB.TS_comp := by
      simp [runB, finalize, foldl_appendDetB, initStStruct]
    rw [hproj] at hv
    rcases List.mem_map.mp hv with ⟨d, hd, rfl⟩
    rcases detsB_mem hd with ⟨r, p, keep, k, hr, hp, hcand⟩
    rcases candResultB_inv hcand with ⟨ts, hts0, hlt, hts, hrest⟩
    exact ⟨ts, hts, hlt⟩

theorem claim_C1_witness :
    ((some (-30) : Val) ∈ (runA exParamsA exFrameA1 (some exBottomA1) lg0 0).TS_comp ∧
      (∃ q, (some (-30) : Val) = some q ∧ exParamsA.TS_threshold < q)) ∧
    ((some (-30) : Val) ∈ (runB exParamsB exInputB1 lg0).TS_comp ∧
      (∃ q, (some (-30) : Val) = some q ∧ exParamsB.TS_threshold < q)) :=
  ⟨⟨by with_unfolding_all decide,
    claim_C1.1 exParamsA exFrameA1 (some exBottomA1) lg0 0 (some (-30))
      (by with_unfolding_all decide)⟩,
   ⟨by with_unfolding_all decide,
    claim_C1.2 exParamsB exInputB1 lg0 (some (-30))
      (by with_unfolding_all decide)⟩⟩

/-!  Claims C4 and C9 with their concrete instances. -/

/-- The row set of the single block of example A1. -/
def exIdxLA1 : List ℕ := idxRBlock exFrameA1 (some exBottomA1) [0]

/-- The per-ping context of example A1 (one block, ping 0, seven rows after
the under-bottom and trailing crops). -/
def exCtxA1 : CtxA := mkCtxA exParamsA exFrameA1 (some exBottomA1) lg0 0 exIdxLA1 7 0

/-- The single detection produced by example A1. -/
def exDetA1 : DetA :=
  { TS_comp := some (-30), TS_uncomp := some (-30), Target_range := some (11/8),
    Target_range_disp := some (7/4), Target_range_min := some (13/10),
    Target_range_max := some (3/2), idx_r := 4, Ping_number := 0, Time := 0,
    idx_target_lin := 4, pulse_env_before := 1, pulse_env_after := 2,
    PL_norm := 4/5, plen := 4 }

/-- Claim C4 counterexample: with Np = 5 and MinNormPL = 0.7 the claim's
lower bound is round(5·0.7) = round(3.5) = 4, but the code computes
min_len = max(1, int(5·0.7)) = 3 by truncation and accepts a detection of
pulse length 3, outside the claimed bound. -/
theorem claim_C4_counterexample :
    (runA exParamsA exFrameA2 none lg0 0).Transmitted_pulse_length = [3] ∧
    NpA exParamsA exFrameA2 = 5 ∧ exParamsA.MinNormPL = 7/10 ∧
    (3 : ℤ) < pyRound ((5 : ℚ) * (7/10)) := by
  with_unfolding_all decide

/-- Claim C4 (amended): a surviving variant-A candidate is accepted only if
min_len ≤ pulse_length ≤ max_len where min_len = max(1, int(Np·MinNormPL))
(truncation, not rounding) and max_len = max(1, ceil(Np·MaxNormPL)); every
recorded Transmitted_pulse_length lies within these bounds. -/
theorem claim_C4 :
    ∀ (P : ParamsA) (F : FrameA) (B : Option (List Val)) (lg : ℚ → ℚ) (a : ℚ),
      ∀ n ∈ (runA P F B lg a).Transmitted_pulse_length,
        minLenA P F ≤ (n : ℤ) ∧ (n : ℤ) ≤ maxLenA P F := by
  intro P F B lg a n hn
  have hproj : (runA P F B lg a).Transmitted_pulse_length
      = (detsA P F B lg a).map DetA.plen := by
    simp [runA, finalize, foldl_appendDetA, initStStruct]
  rw [hproj] at hn
  rcases List.mem_map.mp hn with ⟨d, hd, rfl⟩
  rcases detsA_mem hd with ⟨r, p, nRows, hr, hp, hping⟩
  rcases pingDetsA_mem hping with ⟨k, hkeep, hcand⟩
  rcases processCandA_inv hcand with
    ⟨pk, hz, hpk, hn2, hidx, hplen, hmin, hmax, rest⟩
  exact ⟨hmin, hmax⟩

/-- Claim C4 witness: the accepted pulse length 4 of example A1 lies within
the code's bounds min_len = 3 and max_len = 8. -/
theorem claim_C4_witness :
    (4 : ℕ) ∈ (runA exParamsA exFrameA1 (some exBottomA1) lg0 0).Transmitted_pulse_length ∧
    (minLenA exParamsA exFrameA1 ≤ (4 : ℤ) ∧ (4 : ℤ) ≤ maxLenA exParamsA exFrameA1) :=
  ⟨by with_unfolding_all decide,
   claim_C4 exParamsA exFrameA1 (some exBottomA1) lg0 0 4
     (by with_unfolding_all decide)⟩

/-- Claim C9: variant A applies no full-matrix compensation — the accepted
record's uncompensated target strength is the raw peak column value plus the
time-varied-gain term 40·log10(r_eff) + 2·alpha·r_eff at the peak's effective
range r_eff = Target_range - c·T/4, a candidate with r_eff ≤ 0 yields no
record, and the recorded compensated target strength equals the
uncompensated one (also over every detection of a full run). -/
theorem claim_C9 :
    (∀ (cx : CtxA) (k : ℕ) (d : DetA), processCandA cx k = some d →
      ∃ pk rpeak, cx.z.getD k none = some pk ∧ d.Target_range = some rpeak ∧
        0 < rpeak - cx.c * cx.T / 4 ∧
        d.TS_uncomp = some (pk + (40 * cx.lg (rpeak - cx.c * cx.T / 4)
          + 2 * cx.alpha * (rpeak - cx.c * cx.T / 4))) ∧
        d.TS_comp = d.TS_uncomp) ∧
    (∀ (P : ParamsA) (F : FrameA) (B : Option (List Val)) (lg : ℚ → ℚ) (a : ℚ),
      ∀ d ∈ detsA P F B lg a, d.TS_comp = d.TS_uncomp) := by
  constructor
  · intro cx k d h
    rcases processCandA_inv h with
      ⟨pk, hz, hpk, hn2, hidx, hplen, hmin, hmax, rpeak, hr2, hre, hun, hce, rest⟩
    exact ⟨pk, rpeak, hz, hr2, hre, hun, hce⟩
  · intro P F B lg a d hd
    rcases detsA_mem hd with ⟨r, p, nRows, hr, hp, hping⟩
    rcases pingDetsA_mem hping with ⟨k, hkeep, hcand⟩
    rcases processCandA_inv hcand with
      ⟨pk, hz, hpk, hn2, hidx, hplen, hmin, hmax, rpeak, hr2, hre, hun, hce, rest⟩
    exact hce

/-- Claim C9 witness at the example-A1 candidate (sample 4, effective range
exactly 1). -/
theorem claim_C9_witness :
    (processCandA exCtxA1 4 = some exDetA1 ∧
      (∃ pk rpeak, exCtxA1.z.getD 4 none = some pk ∧
        exDetA1.Target_range = some rpeak ∧
        0 < rpeak - exCtxA1.c * exCtxA1.T / 4 ∧
        exDetA1.TS_uncomp = some (pk + (40 * exCtxA1.lg (rpeak - exCtxA1.c * exCtxA1.T / 4)
          + 2 * exCtxA1.alpha * (rpeak - exCtxA1.c * exCtxA1.T / 4))) ∧
        exDetA1.TS_comp = exDetA1.TS_uncomp)) ∧
    (exDetA1 ∈ detsA exParamsA exFrameA1 (some exBottomA1) lg0 0 ∧
      exDetA1.TS_comp = exDetA1.TS_uncomp) :=
  ⟨⟨by with_unfolding_all decide,
    claim_C9.1 exCtxA1 4 exDetA1 (by with_unfolding_all decide)⟩,
   ⟨by with_unfolding_all decide,
    claim_C9.2 exParamsA exFrameA1 (some exBottomA1) lg0 0 exDetA1
      (by with_unfolding_all decide)⟩⟩

/-!  Claim C6. -/

/-- Np is always at least 3 (either an explicit parameter > 2 or max(3, .)). -/
theorem NpA_ge_three (P : ParamsA) (F : FrameA) : 3 ≤ NpA P F := by
  unfold NpA
  cases hN : P.NpOpt with
  | none => exact le_max_left 3 _
  | some n =>
    dsimp only
    split_ifs with h
    · omega
    · exact le_max_left 3 _

/-- Every index kept by the greedy separation filter is at least Np past the
seed value. -/
theorem minSepKeep_ge {Np : ℤ} (hNp : 0 ≤ Np) :
    ∀ (l : List ℕ) (last : ℤ), ∀ x ∈ minSepKeep Np l last, last + Np ≤ (x : ℤ) := by
  intro l
  induction l with
  | nil => intro last x hx; simp [minSepKeep] at hx
  | cons k t ih =>
    intro last x hx
    unfold minSepKeep at hx
    split_ifs at hx with hk
    · rcases List.mem_cons.mp hx with rfl | hx2
      · omega
      · have h2 := ih (k : ℤ) x hx2
        omega
    · exact ih last x hx

/-- The kept indices are pairwise at least Np apart, in order. -/
theorem minSepKeep_pairwise {Np : ℤ} (hNp : 0 ≤ Np) :
    ∀ (l : List ℕ) (last : ℤ),
      (minSepKeep Np l last).Pairwise (fun (a b : ℕ) => Np ≤ (b : ℤ) - (a : ℤ)) := by
  intro l
  induction l with
  | nil => intro last; simp [minSepKeep]
  | cons k t ih =>
    intro last
    unfold minSepKeep
    split_ifs with hk
    · refine List.Pairwise.cons ?_ (ih (k : ℤ))
      intro x hx
      have h2 := minSepKeep_ge hNp t (k : ℤ) x hx
      omega
    · exact ih last

/-- The separation filter only keeps candidates. -/
theorem minSepKeep_subset {Np : ℤ} :
    ∀ (l : List ℕ) (last : ℤ), ∀ x ∈ minSepKeep Np l last, x ∈ l := by
  intro l
  induction l with
  | nil => intro last x hx; simp [minSepKeep] at hx
  | cons k t ih =>
    intro last x hx
    unfold minSepKeep at hx
    split_ifs at hx with hk
    · rcases List.mem_cons.mp hx with rfl | hx2
      · exact List.mem_cons_self _ _
      · exact List.mem_cons_of_mem _ (ih _ x hx2)
    · exact List.mem_cons_of_mem _ (ih _ x hx)

/-- A variant-A candidate index is interior to its column. -/
theorem candListA_bound {z : List Val} {k : ℕ} (h : k ∈ candListA z) :
    k + 1 < z.length := by
  unfold candListA at h
  rcases List.mem_filter.mp h with ⟨h0, hcond⟩
  simp only [Bool.and_eq_true, decide_eq_true_eq] at hcond
  exact hcond.1.1.1.2

/-- Cropping a range by an integer upper bound gives a shorter range. -/
theorem range_filter_le (M : ℕ) (mB : ℤ) :
    (List.range M).filter (fun i : ℕ => decide ((i : ℤ) ≤ mB)) =
      List.range (min M (mB + 1).toNat) := by
  induction M with
  | zero => simp
  | succ M ih =>
    rw [List.range_succ, List.filter_append, ih]
    by_cases h : ((M : ℤ) ≤ mB)
    · have h1 : min M (mB + 1).toNat = M := by omega
      have h2 : min (M + 1) (mB + 1).toNat = M + 1 := by omega
      rw [h1, h2, List.range_succ]
      congr 1
      simp [h]
    · have h1 : min (M + 1) (mB + 1).toNat = min M (mB + 1).toNat := by omega
      simp only [List.filter_cons, List.filter_nil]
      rw [decide_eq_false h]
      simp [h1]

/-- The per-block row set is always an initial segment of sample indices. -/
theorem idxRBlock_range (F : FrameA) (B : Option (List Val)) (pings : List ℕ) :
    ∃ m, idxRBlock F B pings = List.range m := by
  cases B with
  | none => exact ⟨F.nbSamples, rfl⟩
  | some b =>
    unfold idxRBlock idxRTot
    dsimp only
    split_ifs with h
    · exact ⟨_, rfl⟩
    · exact ⟨_, range_filter_le _ _⟩

/-- Indexing into an initial segment is the identity. -/
theorem range_getD {m i : ℕ} (h : i < m) : (List.range m).getD i 0 = i := by
  rw [List.getD_eq_getElem?_getD, List.getElem?_range h]
  rfl

/-- Claim C6: within one ping column, variant-A detections (greedy,
first-wins keep filter) have peak sample indices pairwise at least Np apart,
and variant-B detections are pairwise at least round(MinEchoSpace · NechP)
samples apart, the spacing being checked against every already-accepted peak
of the ping. -/
theorem claim_C6 :
    (∀ (P : ParamsA) (F : FrameA) (B : Option (List Val)) (lg : ℚ → ℚ) (a : ℚ)
        (pings : List ℕ) (nRows p : ℕ),
      (pingDetsA (mkCtxA P F B lg a (idxRBlock F B pings) nRows p)).Pairwise
        (fun (d1 d2 : DetA) => NpA P F ≤ (d2.idx_r : ℤ) - (d1.idx_r : ℤ))) ∧
    (∀ (P : ParamsB) (I : InputB) (lg : ℚ → ℚ) (pings : List ℕ) (p : ℕ),
      ((pingRunB (mkCtxB P I lg (idxRBlock I.toFrame I.bottom pings) p)).2).Pairwise
        (fun (d1 d2 : DetB) =>
          pyRound (P.MinEchoSpace * (NechP P I : ℚ)) ≤
            (((d2.idx_r : ℤ) - (d1.idx_r : ℤ)).natAbs : ℤ))) := by
  constructor
  · intro P F B lg a pings nRows p
    set cx := mkCtxA P F B lg a (idxRBlock F B pings) nRows p with hcx
    unfold pingDetsA
    split_ifs with hlen
    · exact List.Pairwise.nil
    · obtain ⟨m, hm⟩ := idxRBlock_range F B pings
      have hzlen : cx.z.length = min nRows m := by
        show ((maskedCol F B (idxRBlock F B pings) p).take nRows).length = _
        rw [List.length_take]
        unfold maskedCol
        rw [List.length_map, hm, List.length_range]
      have hidxL : cx.idxL = List.range (min nRows m) := by
        show (idxRBlock F B pings).take nRows = _
        rw [hm, List.take_range]
      have hidx : ∀ k d, k ∈ candListA cx.z → processCandA cx k = some d →
          d.idx_r = k := by
        intro k d hk hc
        rcases processCandA_inv hc with ⟨pk, _, _, _, hidxr, _⟩
        have hb := candListA_bound hk
        have hkm : k < min nRows m := by omega
        rw [hidxr, hidxL, range_getD hkm]
      have hNp : (0 : ℤ) ≤ cx.Np :=
        le_trans (by norm_num) (NpA_ge_three P F)
      have hcomp : (keepA cx.Np cx.z).Pairwise
          (fun k1 k2 => ∀ d1 ∈ processCandA cx k1, ∀ d2 ∈ processCandA cx k2,
            NpA P F ≤ (d2.idx_r : ℤ) - (d1.idx_r : ℤ)) := by
        refine List.Pairwise.imp_of_mem ?_
          (minSepKeep_pairwise hNp (candListA cx.z) (-(10 ^ 9)))
        intro k1 k2 h1mem h2mem hgap d1 hd1 d2 hd2
        have hc1 : processCandA cx k1 = some d1 := hd1
        have hc2 : processCandA cx k2 = some d2 := hd2
        rw [hidx k1 d1 (minSepKeep_subset _ _ k1 h1mem) hc1,
          hidx k2 d2 (minSepKeep_subset _ _ k2 h2mem) hc2]
        exact hgap
      exact List.pairwise_filterMap.mpr hcomp
  · intro P I lg pings p
    set cx := mkCtxB P I lg (idxRBlock I.toFrame I.bottom pings) p with hcx
    obtain ⟨m, hm⟩ := idxRBlock_range I.toFrame I.bottom pings
    set sep := pyRound (P.MinEchoSpace * (NechP P I : ℚ)) with hsep
    have hzlen : cx.zTS.length = m := by
      show ((idxRBlock I.toFrame I.bottom pings).map _).length = m
      rw [List.length_map, hm, List.length_range]
    have hidxL : cx.idxL = List.range m := hm
    unfold pingRunB
    split_ifs with hf
    · have main : ∀ (l : List ℕ) (st : List ℕ × List DetB),
          st.1.Pairwise (fun (a b : ℕ) => sep ≤ (((b : ℤ) - (a : ℤ)).natAbs : ℤ)) →
          (∃ ks : List ℕ, ks.Sublist st.1 ∧
            st.2.map DetB.idx_r = ks.map (fun k => cx.idxL.getD k 0)) →
          (∀ k ∈ st.1, k < cx.zTS.length) →
          (((l.foldl (pingStepB cx) st).1).Pairwise
              (fun (a b : ℕ) => sep ≤ (((b : ℤ) - (a : ℤ)).natAbs : ℤ)) ∧
            (∃ ks : List ℕ, ks.Sublist (l.foldl (pingStepB cx) st).1 ∧
              ((l.foldl (pingStepB cx) st).2).map DetB.idx_r =
                ks.map (fun k => cx.idxL.getD k 0)) ∧
            (∀ k ∈ (l.foldl (pingStepB cx) st).1, k < cx.zTS.length)) := by
        intro l
        induction l with
        | nil => intro st h1 h2 h3; exact ⟨h1, h2, h3⟩
        | cons a t ih =>
          intro st h1 h2 h3
          rw [List.foldl_cons]
          have hiff := candResultB_keep_iff cx st.1 a
          rcases hrec : (candResultB cx st.1 a).2 with _ | d
          · have hb1 : (candResultB cx st.1 a).1 = false := by
              rw [hiff, hrec]; rfl
            have hstep : pingStepB cx st a = st := by
              unfold pingStepB
              dsimp only
              rw [hb1, hrec]
              simp
            rw [hstep]
            exact ih st h1 h2 h3
          · have hb1 : (candResultB cx st.1 a).1 = true := by
              rw [hiff, hrec]; rfl
            have hstep : pingStepB cx st a = (st.1 ++ [a], st.2 ++ [d]) := by
              unfold pingStepB
              dsimp only
              rw [hb1, hrec]
              simp
            rw [hstep]
            rcases candResultB_inv hrec with
              ⟨ts, hts, hlt, htsc, hping, hidxr, hklen, hsp⟩
            apply ih
            · rw [List.pairwise_append]
              refine ⟨h1, List.pairwise_singleton _ _, ?_⟩
              intro x hx b hb
              rcases List.mem_singleton.mp hb with rfl
              exact hsp x hx
            · rcases h2 with ⟨ks, hks, hmap⟩
              refine ⟨ks ++ [a], hks.append (List.Sublist.refl [a]), ?_⟩
              simp [hmap, hidxr]
            · intro k hk
              rcases List.mem_append.mp hk with hk1 | hk2
              · exact h3 k hk1
              · rcases List.mem_singleton.mp hk2 with rfl
                exact hklen
      rcases main (candListB cx.zP cx.decTir) ([], [])
          List.Pairwise.nil ⟨[], List.Sublist.refl [], rfl⟩ (by intro k hk; simp at hk)
        with ⟨hpair, ⟨ks, hks, hmap⟩, hbound⟩
      have hkpair : ks.Pairwise (fun (a b : ℕ) => sep ≤ (((b : ℤ) - (a : ℤ)).natAbs : ℤ)) :=
        List.Pairwise.sublist hks hpair
      have hmapped : (((candListB cx.zP cx.decTir).foldl (pingStepB cx) ([], [])).2).map
          DetB.idx_r
          |>.Pairwise (fun (x y : ℕ) => sep ≤ (((y : ℤ) - (x : ℤ)).natAbs : ℤ)) := by
        rw [hmap, List.pairwise_map]
        refine List.Pairwise.imp_of_mem ?_ hkpair
        intro a b ha hb hgap
        have haz : a < cx.zTS.length := hbound a (hks.subset ha)
        have hbz : b < cx.zTS.length := hbound b (hks.subset hb)
        rw [hidxL, range_getD (by omega : a < m), range_getD (by omega : b < m)]
        exact hgap
      rw [List.pairwise_map] at hmapped
      exact hmapped
    · exact List.Pairwise.nil

/-!  Claim C8. -/

/-- The pad indexer returns a valid index whose time is at most t. -/
theorem padIdx_sound {ts : List ℚ} {t : ℚ} {p : ℕ} (h : padIdx ts t = some p) :
    p < ts.length ∧ ts.getD p 0 ≤ t := by
  induction ts generalizing p with
  | nil => simp [padIdx] at h
  | cons x xs ih =>
    unfold padIdx at h
    cases hrec : padIdx xs t with
    | some i =>
      rw [hrec] at h
      injection h with h
      subst h
      rcases ih hrec with ⟨h1, h2⟩
      exact ⟨by simpa using h1, by simpa using h2⟩
    | none =>
      rw [hrec] at h
      split_ifs at h with hx
      · injection h with h
        subst h
        exact ⟨by simp, by simpa using hx⟩

/-- If some index has time at most t, the pad indexer returns one at least
as late. -/
theorem padIdx_complete {ts : List ℚ} {t : ℚ} {j : ℕ}
    (hj : j < ts.length) (hle : ts.getD j 0 ≤ t) :
    ∃ p, padIdx ts t = some p ∧ j ≤ p := by
  induction ts generalizing j with
  | nil => simp at hj
  | cons x xs ih =>
    unfold padIdx
    cases hrec : padIdx xs t with
    | some i =>
      refine ⟨i + 1, rfl, ?_⟩
      cases j with
      | zero => omega
      | succ j2 =>
        rcases ih (by simpa using hj) (by simpa using hle) with ⟨p, hp, hjp⟩
        rw [hrec] at hp
        injection hp with hp
        omega
    | none =>
      cases j with
      | zero =>
        simp only [List.getD_cons_zero] at hle
        exact ⟨0, by rw [if_pos hle], le_refl 0⟩
      | succ j2 =>
        rcases ih (by simpa using hj) (by simpa using hle) with ⟨p, hp, hjp⟩
        rw [hrec] at hp
        exact absurd hp (by simp)

/-- The backfill indexer returns a valid index whose time is at least t. -/
theorem bfillIdx_sound {ts : List ℚ} {t : ℚ} {b : ℕ} (h : bfillIdx ts t = some b) :
    b < ts.length ∧ t ≤ ts.getD b 0 := by
  induction ts generalizing b with
  | nil => simp [bfillIdx] at h
  | cons x xs ih =>
    unfold bfillIdx at h
    split_ifs at h with hx
    · injection h with h
      subst h
      exact ⟨by simp, by simpa using hx⟩
    · cases hrec : bfillIdx xs t with
      | some i =>
        rw [hrec] at h
        injection h with h
        subst h
        rcases ih hrec with ⟨h1, h2⟩
        exact ⟨by simpa using h1, by simpa using h2⟩
      | none => rw [hrec] at h; exact absurd h (by simp)

/-- If some index has time at least t, the backfill indexer returns one at
most as late. -/
theorem bfillIdx_complete {ts : List ℚ} {t : ℚ} {j : ℕ}
    (hj : j < ts.length) (hle : t ≤ ts.getD j 0) :
    ∃ b, bfillIdx ts t = some b ∧ b ≤ j := by
  induction ts generalizing j with
  | nil => simp at hj
  | cons x xs ih =>
    unfold bfillIdx
    by_cases hx : t ≤ x
    · exact ⟨0, by rw [if_pos hx], Nat.zero_le j⟩
    · rw [if_neg hx]
      cases j with
      | zero => simp only [List.getD_cons_zero] at hle; exact absurd hle hx
      | succ j2 =>
        rcases ih (by simpa using hj) (by simpa using hle) with ⟨b, hb, hbj⟩
        exact ⟨b + 1, by rw [hb]; rfl, by omega⟩

/-- On a sorted source index, the strictly nearest index is the one the
pad/backfill comparison selects. -/
theorem nearestIdx_unique {ts : List ℚ} {t : ℚ} {j : ℕ}
    (hsort : ∀ a b : ℕ, a ≤ b → b < ts.length → ts.getD a 0 ≤ ts.getD b 0)
    (hj : j < ts.length)
    (hstrict : ∀ j2, j2 < ts.length → j2 ≠ j →
      |ts.getD j 0 - t| < |ts.getD j2 0 - t|) :
    nearestIdx ts t = some j := by
  rcases le_total (ts.getD j 0) t with hcase | hcase
  · rcases padIdx_complete hj hcase with ⟨p, hp, hjp⟩
    rcases padIdx_sound hp with ⟨hplen, hple⟩
    have hpj : p = j := by
      by_contra hne
      have h1 := hstrict p hplen hne
      have h2 : ts.getD j 0 ≤ ts.getD p 0 := hsort j p hjp hplen
      have e1 : |ts.getD j 0 - t| = t - ts.getD j 0 := by
        rw [abs_sub_comm]; exact abs_of_nonneg (by linarith)
      have e2 : |ts.getD p 0 - t| = t - ts.getD p 0 := by
        rw [abs_sub_comm]; exact abs_of_nonneg (by linarith)
      rw [e1, e2] at h1
      linarith
    subst hpj
    unfold nearestIdx
    cases hb : bfillIdx ts t with
    | none => rw [hp]
    | some b =>
      rw [hp]
      rcases bfillIdx_sound hb with ⟨hblen, hble⟩
      dsimp only
      by_cases hbj : b = p
      · subst hbj
        split_ifs <;> rfl
      · have h1 := hstrict b hblen hbj
        split_ifs with hc
        · rfl
        · rw [abs_sub_comm t] at hc
          exact absurd h1 hc
  · rcases bfillIdx_complete hj hcase with ⟨b, hb, hbj⟩
    rcases bfillIdx_sound hb with ⟨hblen, hble⟩
    have hbeq : b = j := by
      by_contra hne
      have h1 := hstrict b hblen hne
      have h2 : ts.getD b 0 ≤ ts.getD j 0 := hsort b j hbj hj
      have e1 : |ts.getD j 0 - t| = ts.getD j 0 - t := abs_of_nonneg (by linarith)
      have e2 : |ts.getD b 0 - t| = ts.getD b 0 - t := abs_of_nonneg (by linarith)
      rw [e1, e2] at h1
      linarith
    subst hbeq
    unfold nearestIdx
    cases hp : padIdx ts t with
    | none => rw [hb]
    | some p =>
      rw [hb]
      rcases padIdx_sound hp with ⟨hplen, hple⟩
      dsimp only
      by_cases hpj : p = b
      · subst hpj
        split_ifs <;> rfl
      · have h1 := hstrict p hplen hpj
        split_ifs with hc
        · rw [abs_sub_comm t] at hc
          exact absurd hc (not_lt.mpr (le_of_lt h1))
        · rfl

/-- The nearest indexer returns a valid index. -/
theorem nearestIdx_lt {ts : List ℚ} {t : ℚ} {i : ℕ} (h : nearestIdx ts t = some i) :
    i < ts.length := by
  unfold nearestIdx at h
  cases hp : padIdx ts t with
  | none =>
    cases hb : bfillIdx ts t with
    | none => rw [hp, hb] at h; exact absurd h (by simp)
    | some b =>
      rw [hp, hb] at h
      injection h with h
      subst h
      exact (bfillIdx_sound hb).1
  | some p =>
    cases hb : bfillIdx ts t with
    | none =>
      rw [hp, hb] at h
      injection h with h
      subst h
      exact (padIdx_sound hp).1
    | some b =>
      rw [hp, hb] at h
      dsimp only at h
      split_ifs at h with hc
      · injection h with h
        subst h
        exact (padIdx_sound hp).1
      · injection h with h
        subst h
        exact (bfillIdx_sound hb).1

/-- Entry i of an aligned navigation vector is the reindexed value at the
i-th ping time. -/
theorem navAligned_getD {s : NavSeries} {ref : List ℚ} {i : ℕ} (hi : i < ref.length) :
    (navAligned (some s) ref).getD i none =
      reindexNearest s.times s.vals (1/2) (ref.getD i 0) := by
  unfold navAligned
  rw [List.getD_eq_getElem?_getD, List.getElem?_map,
    List.getElem?_eq_getElem hi]
  rw [List.getD_eq_getElem?_getD, List.getElem?_eq_getElem hi]
  rfl

/-- Claim C8 counterexample: with a single navigation sample at time 0 and
ping times 0 and 10 s, the second ping has no source sample within the
500 ms tolerance and the aligned value is NaN — not the zero the claim
posits. -/
theorem claim_C8_counterexample :
    navAligned (some ⟨[0], [some 7]⟩) [0, 10] = [some 7, Val.nan] ∧
    Val.nan ≠ (some 0 : Val) := by
  constructor
  · with_unfolding_all decide
  · decide

/-- Claim C8 (amended): for each navigation field, an entirely absent
variable yields a zero vector; when the variable exists, a ping whose every
source sample is farther than 500 ms away gets NaN (not zero), and a ping
with a strictly nearest source sample within 500 ms (source times sorted,
as pandas requires) gets that sample's value. -/
theorem claim_C8 :
    (∀ ref : List ℚ, navAligned none ref = ref.map (fun _ => (some 0 : Val))) ∧
    (∀ (s : NavSeries) (ref : List ℚ) (i : ℕ) (t : ℚ),
      i < ref.length → ref.getD i 0 = t →
      (∀ j, j < s.times.length → 1/2 < |s.times.getD j 0 - t|) →
      (navAligned (some s) ref).getD i none = none) ∧
    (∀ (s : NavSeries) (ref : List ℚ) (i : ℕ) (t : ℚ) (j : ℕ),
      i < ref.length → ref.getD i 0 = t →
      (∀ a b : ℕ, a ≤ b → b < s.times.length →
        s.times.getD a 0 ≤ s.times.getD b 0) →
      j < s.times.length →
      (∀ j2, j2 < s.times.length → j2 ≠ j →
        |s.times.getD j 0 - t| < |s.times.getD j2 0 - t|) →
      |s.times.getD j 0 - t| ≤ 1/2 →
      (navAligned (some s) ref).getD i none = s.vals.getD j none) := by
  refine ⟨fun ref => rfl, ?_, ?_⟩
  · intro s ref i t hi ht hfar
    rw [navAligned_getD hi, ht]
    unfold reindexNearest
    cases hn : nearestIdx s.times t with
    | none => rfl
    | some i2 =>
      dsimp only
      rw [if_neg (not_le.mpr (hfar i2 (nearestIdx_lt hn)))]
  · intro s ref i t j hi ht hsort hj hstrict htol
    rw [navAligned_getD hi, ht]
    unfold reindexNearest
    rw [nearestIdx_unique hsort hj hstrict]
    dsimp only
    rw [if_pos htol]

/-- Claim C8 witness: one source sample at time 0 with value 7; ping time 0
picks it up (strict nearest within tolerance), ping time 10 gets NaN. -/
theorem claim_C8_witness :
    ((1 : ℕ) < ([0, 10] : List ℚ).length ∧
      ([0, 10] : List ℚ).getD 1 0 = 10 ∧
      (∀ j, j < ([(0 : ℚ)] : List ℚ).length →
        (1 : ℚ)/2 < |([(0 : ℚ)] : List ℚ).getD j 0 - 10|) ∧
      (navAligned (some ⟨[0], [some 7]⟩) [0, 10]).getD 1 none = none) ∧
    ((0 : ℕ) < ([0, 10] : List ℚ).length ∧
      ([0, 10] : List ℚ).getD 0 0 = 0 ∧
      (0 : ℕ) < ([(0 : ℚ)] : List ℚ).length ∧
      |([(0 : ℚ)] : List ℚ).getD 0 0 - 0| ≤ 1/2 ∧
      (navAligned (some ⟨[0], [some 7]⟩) [0, 10]).getD 0 none =
        ([some 7] : List Val).getD 0 none) :=
  ⟨⟨by decide, by with_unfolding_all decide, by with_unfolding_all decide,
    claim_C8.2.1 ⟨[0], [some 7]⟩ [0, 10] 1 10 (by decide)
      (by with_unfolding_all decide) (by with_unfolding_all decide)⟩,
   ⟨by decide, by with_unfolding_all decide, by decide, by with_unfolding_all decide,
    claim_C8.2.2 ⟨[0], [some 7]⟩ [0, 10] 0 0 0 (by decide)
      (by with_unfolding_all decide)
      (by
        intro a b hab hb
        have hb0 : b = 0 := by simpa using hb
        subst hb0
        have ha0 : a = 0 := by omega
        subst ha0
        exact le_refl _)
      (by decide)
      (by
        intro j2 h2 hne
        exact absurd (by simpa using h2 : j2 = 0) hne)
      (by with_unfolding_all decide)⟩⟩

/-!  Claim C5. -/

/-- A true numpy >= comparison means both operands are finite and ordered. -/
theorem vge_some {u v : Val} (h : vge u v = true) :
    ∃ x y, u = some x ∧ v = some y ∧ y ≤ x := by
  cases u with
  | none => simp [vge] at h
  | some x =>
    cases v with
    | none => simp [vge] at h
    | some y => exact ⟨x, y, rfl, rfl, by simpa [vge] using h⟩

/-- A finite float sum has finite operands. -/
theorem vadd_some {u v : Val} {q : ℚ} (h : vadd u v = some q) :
    (∃ a, u = some a) ∧ (∃ b, v = some b) := by
  cases u with
  | none => simp [vadd] at h
  | some a =>
    cases v with
    | none => simp [vadd] at h
    | some b => exact ⟨⟨a, rfl⟩, ⟨b, rfl⟩⟩

/-- Reading inside the taken region reads the original list. -/
theorem getD_take {α : Type u_1} {l : List α} {n k : ℕ} {d : α} (hk : k < n) :
    (l.take n).getD k d = l.getD k d := by
  rw [List.getD_eq_getElem?_getD, List.getD_eq_getElem?_getD,
    List.getElem?_take_of_lt hk]

/-- A non-NaN default-read is an in-bounds read. -/
theorem getD_some_lt {l : List Val} {k : ℕ} {x : ℚ}
    (h : l.getD k none = some x) : k < l.length := by
  by_contra hk
  rw [List.getD_eq_getElem?_getD, List.getElem?_eq_none (by omega)] at h
  simp at h

/-- A non-NaN read of a mapped index list is in bounds and determined by the
mapped index. -/
theorem getD_map_some {f : ℕ → Val} {l : List ℕ} {k : ℕ} {x : ℚ}
    (h : (l.map f).getD k none = some x) :
    k < l.length ∧ f (l.getD k 0) = some x := by
  have hk : k < l.length := by
    have := getD_some_lt h
    rwa [List.length_map] at this
  refine ⟨hk, ?_⟩
  rw [List.getD_eq_getElem?_getD, List.getElem?_map,
    List.getElem?_eq_getElem hk] at h
  rw [List.getD_eq_getElem?_getD, List.getElem?_eq_getElem hk]
  simpa using h

/-- The first under-bottom index is in bounds and its depth really crosses
the bottom depth. -/
theorem crossIdx_some {row : List Val} {b : Val} {ci : ℕ}
    (h : crossIdx row b = some ci) :
    ci < row.length ∧ vge (row.getD ci none) b = true := by
  unfold crossIdx at h
  rw [List.findIdx?_eq_some_iff_findIdx_eq] at h
  rcases h with ⟨hlt, hfind⟩
  subst hfind
  refine ⟨hlt, ?_⟩
  have hp := @List.findIdx_getElem _ (fun v => vge v b) row hlt
  rw [List.getD_eq_getElem?_getD, List.getElem?_eq_getElem hlt]
  simpa using hp

/-- Every ping of an iterated block is a valid ping index. -/
theorem blockPings_lt {bs n ite p : ℕ} {r : ℕ × ℕ}
    (hr : r ∈ blockRanges bs n ite) (hp : p ∈ blockPings r) : p < n := by
  unfold blockRanges at hr
  rcases List.mem_map.mp hr with ⟨ui, hui, rfl⟩
  unfold blockPings blockRange at hp
  rcases List.mem_range'.mp hp with ⟨i, hi, rfl⟩
  dsimp at hi ⊢
  omega

/-- Claim C5: with a bottom line supplied and per-ping depth columns of
frame width that are finite and monotone (the spec's data-model invariant),
no accepted detection of either variant records a peak sample index at or
beyond its ping's first under-bottom crossing: the under-bottom mask sends
such cells to the -999 sentinel (variant A) or NaN (variant B), which the
candidate tests reject. -/
theorem claim_C5 :
    (∀ (P : ParamsA) (F : FrameA) (bl : List Val) (lg : ℚ → ℚ) (a : ℚ),
      -120 ≤ P.TS_threshold →
      (∀ p, p < F.nbPings → (svRow F p).length = F.nbSamples) →
      (∀ p, p < F.nbPings → ∀ j, j < F.nbSamples → ∀ i, i ≤ j →
        vge ((depthRow F p).getD j none) ((depthRow F p).getD i none) = true) →
      ∀ pr ∈ (runA P F (some bl) lg a).idx_r.zip (runA P F (some bl) lg a).Ping_number,
        ∀ ci, crossIdx (depthRow F pr.2) (bl.getD pr.2 none) = some ci → pr.1 < ci) ∧
    (∀ (P : ParamsB) (I : InputB) (lg : ℚ → ℚ) (bl : List Val),
      I.bottom = some bl →
      (∀ p, p < I.nbPings → (I.Sv.getD p []).length = I.nbSamples) →
      (∀ p, p < I.nbPings → ∀ j, j < I.nbSamples → ∀ i, i ≤ j →
        vge ((I.depth.getD p []).getD j none) ((I.depth.getD p []).getD i none) = true) →
      ∀ pr ∈ (runB P I lg).idx_r.zip (runB P I lg).Ping_number,
        ∀ ci, crossIdx (I.depth.getD pr.2 []) (bl.getD pr.2 none) = some ci →
          pr.1 < ci) := by
  constructor
  · intro P F bl lg a hthr hlenSv hmono pr hpr ci hci
    have hA1 : (runA P F (some bl) lg a).idx_r
        = (detsA P F (some bl) lg a).map DetA.idx_r := by
      simp [runA, finalize, foldl_appendDetA, initStStruct]
    have hA2 : (runA P F (some bl) lg a).Ping_number
        = (detsA P F (some bl) lg a).map DetA.Ping_number := by
      simp [runA, finalize, foldl_appendDetA, initStStruct]
    rw [hA1, hA2, List.zip_map'] at hpr
    rcases List.mem_map.mp hpr with ⟨d, hd, rfl⟩
    rcases detsA_mem hd with ⟨r, p, nRows, hr, hp, hping⟩
    have hpn : p < F.nbPings := blockPings_lt hr hp
    rcases pingDetsA_mem hping with ⟨k, hkeep, hcand⟩
    rcases processCandA_inv hcand with ⟨pk, hz, hpk, hPing, hidx, hrest⟩
    set idxL := idxRBlock F (some bl) (blockPings r) with hidxLdef
    have hPing2 : d.Ping_number = p := hPing
    have hz2 : ((maskedCol F (some bl) idxL p).take nRows).getD k none = some pk := hz
    have hpk2 : P.TS_threshold < pk := hpk
    have hklen := getD_some_lt hz2
    rw [List.length_take] at hklen
    have hkn : k < nRows := lt_of_lt_of_le hklen (min_le_left _ _)
    have hzm : (maskedCol F (some bl) idxL p).getD k none = some pk := by
      rw [← getD_take hkn]; exact hz2
    unfold maskedCol at hzm
    dsimp only at hzm
    rcases getD_map_some hzm with ⟨hkI, hf⟩
    obtain ⟨m, hm⟩ := idxRBlock_range F (some bl) (blockPings r)
    rw [← hidxLdef] at hm
    have hkm : k < m := by rw [hm, List.length_range] at hkI; exact hkI
    have hkid : idxL.getD k 0 = k := by rw [hm]; exact range_getD hkm
    rw [hkid] at hf
    by_cases hmask : vge ((depthRow F p).getD k none) (bl.getD p none) = true
    · rw [if_pos hmask] at hf
      injection hf with hf
      exfalso
      rw [← hf] at hpk2
      linarith
    · rw [if_neg hmask] at hf
      have hksv := getD_some_lt hf
      rw [hlenSv p hpn] at hksv
      have hdix : d.idx_r = k := by
        have hidx2 : d.idx_r = (idxL.take nRows).getD k 0 := hidx
        rw [hidx2, getD_take hkn, hkid]
      rw [hPing2] at hci
      rcases crossIdx_some hci with ⟨hcilt, hcige⟩
      dsimp only
      rw [hdix]
      by_contra hge
      have hcik : ci ≤ k := by omega
      have hm2 := hmono p hpn k hksv ci hcik
      rcases vge_some hm2 with ⟨qk, qci, hqk, hqci, hle⟩
      rcases vge_some hcige with ⟨qci2, bq, hqci2, hbq, hble⟩
      rw [hqci] at hqci2
      injection hqci2 with he
      subst he
      apply hmask
      rw [hqk, hbq]
      show decide (bq ≤ qk) = true
      exact decide_eq_true (le_trans hble hle)
  · intro P I lg bl hbot hlenSv hmono pr hpr ci hci
    have hB1 : (runB P I lg).idx_r = (detsB P I lg).map DetB.idx_r := by
      simp [runB, finalize, foldl_appendDetB, initStStruct]
    have hB2 : (runB P I lg).Ping_number = (detsB P I lg).map DetB.Ping_number := by
      simp [runB, finalize, foldl_appendDetB, initStStruct]
    rw [hB1, hB2, List.zip_map'] at hpr
    rcases List.mem_map.mp hpr with ⟨d, hd, rfl⟩
    rcases detsB_mem hd with ⟨r, p, keep, k, hr, hp, hcand⟩
    have hpn : p < I.nbPings := blockPings_lt hr hp
    rcases candResultB_inv hcand with ⟨ts, hts, hlt, htsc, hPing, hidx, hklen, hsp⟩
    set idxL := idxRBlock I.toFrame I.bottom (blockPings r) with hidxLdef
    have hPing2 : d.Ping_number = p := hPing
    have hts2 : (idxL.map fun j => maskCellB I p j (tsCell P I lg p j)).getD k none
        = some ts := hts
    rcases getD_map_some hts2 with ⟨hkI, hf⟩
    obtain ⟨m, hm⟩ := idxRBlock_range I.toFrame I.bottom (blockPings r)
    rw [← hidxLdef] at hm
    have hkm : k < m := by rw [hm, List.length_range] at hkI; exact hkI
    have hkid : idxL.getD k 0 = k := by rw [hm]; exact range_getD hkm
    rw [hkid] at hf
    unfold maskCellB at hf
    by_cases hmask : maskedB I p k = true
    · rw [if_pos hmask] at hf
      exact absurd hf (by simp)
    · rw [if_neg hmask] at hf
      unfold maskedB at hmask
      rw [hbot] at hmask
      dsimp only at hmask
      unfold tsCell at hf
      rcases vadd_some hf with ⟨⟨a1, ha1⟩, hb1⟩
      unfold tsuCell at ha1
      rcases vadd_some ha1 with ⟨⟨a2, ha2⟩, hb2⟩
      rcases vadd_some ha2 with ⟨⟨a3, ha3⟩, hb3⟩
      have hksv := getD_some_lt ha3
      rw [hlenSv p hpn] at hksv
      have hdix : d.idx_r = k := by
        have hidx2 : d.idx_r = idxL.getD k 0 := hidx
        rw [hidx2, hkid]
      rw [hPing2] at hci
      rcases crossIdx_some hci with ⟨hcilt, hcige⟩
      dsimp only
      rw [hdix]
      by_contra hge
      have hcik : ci ≤ k := by omega
      have hdepth : depthRow I.toFrame p = I.depth.getD p [] := rfl
      have hm2 := hmono p hpn k hksv ci hcik
      rcases vge_some hm2 with ⟨qk, qci, hqk, hqci, hle⟩
      rcases vge_some hcige with ⟨qci2, bq, hqci2, hbq, hble⟩
      rw [hqci] at hqci2
      injection hqci2 with he
      subst he
      apply hmask
      rw [hqk, hbq]
      show decide (bq ≤ qk) = true
      exact decide_eq_true (le_trans hble hle)

/-- Claim C5 witness: example A1 has its crossing at sample 7 and detects at
sample 4; example B1 has its crossing at sample 11 and detects at sample 9. -/
theorem claim_C5_witness :
    (((-120 : ℚ) ≤ exParamsA.TS_threshold) ∧
     (∀ p, p < exFrameA1.nbPings → (svRow exFrameA1 p).length = exFrameA1.nbSamples) ∧
     (∀ p, p < exFrameA1.nbPings → ∀ j, j < exFrameA1.nbSamples → ∀ i, i ≤ j →
       vge ((depthRow exFrameA1 p).getD j none)
         ((depthRow exFrameA1 p).getD i none) = true) ∧
     ((4, 0) : ℕ × ℕ) ∈ (runA exParamsA exFrameA1 (some exBottomA1) lg0 0).idx_r.zip
       (runA exParamsA exFrameA1 (some exBottomA1) lg0 0).Ping_number ∧
     crossIdx (depthRow exFrameA1 0) (exBottomA1.getD 0 none) = some 7 ∧
     (4 : ℕ) < 7) ∧
    ((exInputB1.bottom = some [some (57/10)]) ∧
     (∀ p, p < exInputB1.nbPings →
       (exInputB1.Sv.getD p []).length = exInputB1.nbSamples) ∧
     (∀ p, p < exInputB1.nbPings → ∀ j, j < exInputB1.nbSamples → ∀ i, i ≤ j →
       vge ((exInputB1.depth.getD p []).getD j none)
         ((exInputB1.depth.getD p []).getD i none) = true) ∧
     ((9, 0) : ℕ × ℕ) ∈ (runB exParamsB exInputB1 lg0).idx_r.zip
       (runB exParamsB exInputB1 lg0).Ping_number ∧
     crossIdx (exInputB1.depth.getD 0 []) (([some (57/10)] : List Val).getD 0 none)
       = some 11 ∧
     (9 : ℕ) < 11) :=
  ⟨⟨by with_unfolding_all decide, by with_unfolding_all decide,
    by with_unfolding_all decide, by with_unfolding_all decide,
    by with_unfolding_all decide,
    claim_C5.1 exParamsA exFrameA1 exBottomA1 lg0 0
      (by with_unfolding_all decide) (by with_unfolding_all decide)
      (by with_unfolding_all decide) (4, 0) (by with_unfolding_all decide) 7
      (by with_unfolding_all decide)⟩,
   ⟨by with_unfolding_all decide, by with_unfolding_all decide,
    by with_unfolding_all decide, by with_unfolding_all decide,
    by with_unfolding_all decide,
    claim_C5.2 exParamsB exInputB1 lg0 [some (57/10)]
      (by with_unfolding_all decide) (by with_unfolding_all decide)
      (by with_unfolding_all decide) (9, 0) (by with_unfolding_all decide) 11
      (by with_unfolding_all decide)⟩⟩
